import Mathlib

/-!
# Packed one-dimensional flag fields

A shallow embedding of `one_dimensional.go` and `errors.go`.

Conventions of the embedding:

* Go's `uint` is the 64-bit unsigned integer: every `uint` operation is taken
  modulo `uintMod = 2 ^ 64`.
* Go's `byte` / `uint8` is taken modulo `byteMod = 2 ^ 8`, `uint32` modulo
  `uint32Mod = 2 ^ 32`.
* A slice `[]uint32` is a `List Nat`; indexing outside the slice is a run-time
  panic and is rendered as `none`.
* A Go function returning `(v, error)` returns `Option (v × Option ErrOutOfBounds)`:
  `none` is the panic, `some (v, none)` a normal return with a `nil` error and
  `some (v, some e)` a normal return with error `e`.
* A method with a pointer receiver that mutates the array returns the array
  after the call next to its error value.
* `Set` and `Unset` panic before they write, so a panic leaves the array as it was.
  `SetField` and `UnsetField` write field by field and can panic after some writes:
  `SetFieldInPlace` and `UnsetFieldInPlace` give the array left in place in that case
  too, and `SetField` / `UnsetField` are their normal returns.
-/

namespace FlagField

/-! ## Constants and machine arithmetic -/

def slabLength : Nat := 32

def log2ForSlabLength : Nat := 5

/-- Modulus of the Go type `uint` (64-bit target). -/
def uintMod : Nat := 2 ^ 64

/-- Modulus of the Go types `byte` and `uint8`. -/
def byteMod : Nat := 2 ^ 8

/-- Modulus of the Go type `uint32`. -/
def uint32Mod : Nat := 2 ^ 32

/-- The `uint32` value of the Go expression `1 << s` for a `uint` shift count `s`. -/
def bitMask (s : Nat) : Nat := (1 <<< s) % uint32Mod

/-- The `uint32` bitwise complement `^x`: exclusive or with the all-ones word. -/
def not32 (x : Nat) : Nat := (uint32Mod - 1) ^^^ x

/-! ## errors.go -/

structure ErrOutOfBounds where
  boundType : String
  bound : Nat
  input : Nat
  deriving DecidableEq

/-! ## one_dimensional.go -/

structure OneDFlagField where
  fieldWidth : Nat
  length : Nat
  data : List Nat
  deriving DecidableEq

/-- The slice read `data[i]`; `none` is the index-out-of-range panic. -/
def readWord (data : List Nat) (i : Nat) : Option Nat := data[i]?

/-- The slice write `data[i] = v`; `none` is the index-out-of-range panic. -/
def writeWord (data : List Nat) (i v : Nat) : Option (List Nat) :=
  if i < data.length then some (data.set i v) else none

def OneDFlagField.Len (ff : OneDFlagField) : Nat := ff.length

def OneDFlagField.dataIndexAndOffsetFor (ff : OneDFlagField) (index : Nat) :
    Nat × Nat × Option ErrOutOfBounds :=
  if index ≥ ff.Len then
    (0, 0, some ⟨"index", ff.Len, index⟩)
  else
    let bitsToStartPoint := (index * ff.fieldWidth) % uintMod
    let firstIndex := bitsToStartPoint >>> log2ForSlabLength
    let fieldStartPoint := (bitsToStartPoint &&& (slabLength - 1)) % byteMod
    (firstIndex, fieldStartPoint, none)

def dataFieldOffsets (fieldStartOffset fieldIndex : Nat) : Nat × Nat :=
  let fromStartOffset := (fieldStartOffset + fieldIndex) % byteMod
  let fromStartIndex := fromStartOffset >>> log2ForSlabLength
  let landedByteOffset :=
    (fromStartOffset + uintMod - (fromStartIndex <<< log2ForSlabLength) % uintMod) % uintMod
  (landedByteOffset, fromStartIndex)

/-- The expression `ff.data[dataIndex+uint(fromStartIndex)]&(1<<landedByteOffset) ==
(1 << landedByteOffset)` evaluated after `dataFieldOffsets(offset, fieldIndex)`. -/
def testField (data : List Nat) (dataIndex offset fieldIndex : Nat) : Option Bool :=
  let (landedByteOffset, fromStartIndex) := dataFieldOffsets offset fieldIndex
  match readWord data ((dataIndex + fromStartIndex) % uintMod) with
  | none => none
  | some w => some (w &&& bitMask landedByteOffset == bitMask landedByteOffset)

/-- The statement `ff.data[dataIndex+uint(fromStartIndex)] |= 1 << landedByteOffset`
executed after `dataFieldOffsets(offset, fieldIndex)`. -/
def orField (data : List Nat) (dataIndex offset fieldIndex : Nat) : Option (List Nat) :=
  let (landedByteOffset, fromStartIndex) := dataFieldOffsets offset fieldIndex
  let i := (dataIndex + fromStartIndex) % uintMod
  match readWord data i with
  | none => none
  | some w => writeWord data i (w ||| bitMask landedByteOffset)

/-- The statement `ff.data[dataIndex+uint(fromStartIndex)] &= ^(1 << landedByteOffset)`
executed after `dataFieldOffsets(offset, fieldIndex)`. -/
def clearField (data : List Nat) (dataIndex offset fieldIndex : Nat) : Option (List Nat) :=
  let (landedByteOffset, fromStartIndex) := dataFieldOffsets offset fieldIndex
  let i := (dataIndex + fromStartIndex) % uintMod
  match readWord data i with
  | none => none
  | some w => writeWord data i (w &&& not32 (bitMask landedByteOffset))

/-- The loop of `AllSet`: `result = result && <test>`; Go's `&&` does not evaluate
its right operand (and so does not read the slice) when `result` is false. -/
def allSetLoop (data : List Nat) (dataIndex offset : Nat) : Bool → List Nat → Option Bool
  | result, [] => some result
  | result, nextFieldIndex :: rest =>
    if result then
      match testField data dataIndex offset nextFieldIndex with
      | none => none
      | some b => allSetLoop data dataIndex offset b rest
    else
      allSetLoop data dataIndex offset false rest

/-- The loop of `AnySet`: `result = result || <test>`; Go's `||` does not evaluate
its right operand when `result` is true. -/
def anySetLoop (data : List Nat) (dataIndex offset : Nat) : Bool → List Nat → Option Bool
  | result, [] => some result
  | result, nextFieldIndex :: rest =>
    if result then
      anySetLoop data dataIndex offset true rest
    else
      match testField data dataIndex offset nextFieldIndex with
      | none => none
      | some b => anySetLoop data dataIndex offset b rest

/-- The loop of `SetField`. -/
def setFieldLoop (dataIndex offset : Nat) : List Nat → List Nat → Option (List Nat)
  | data, [] => some data
  | data, nextFieldIndex :: rest =>
    match orField data dataIndex offset nextFieldIndex with
    | none => none
    | some data' => setFieldLoop dataIndex offset data' rest

/-- The loop of `UnsetField`. -/
def unsetFieldLoop (dataIndex offset : Nat) : List Nat → List Nat → Option (List Nat)
  | data, [] => some data
  | data, nextFieldIndex :: rest =>
    match clearField data dataIndex offset nextFieldIndex with
    | none => none
    | some data' => unsetFieldLoop dataIndex offset data' rest

def OneDFlagField.AllSet (ff : OneDFlagField) (index firstFieldIndex : Nat) (rest : List Nat) :
    Option (Bool × Option ErrOutOfBounds) :=
  match ff.dataIndexAndOffsetFor index with
  | (_, _, some err) => some (false, some err)
  | (dataIndex, offset, none) =>
    match testField ff.data dataIndex offset firstFieldIndex with
    | none => none
    | some result =>
      match allSetLoop ff.data dataIndex offset result rest with
      | none => none
      | some result => some (result, none)

def OneDFlagField.IsSet (ff : OneDFlagField) (index firstFieldIndex : Nat) :
    Option (Bool × Option ErrOutOfBounds) :=
  match ff.dataIndexAndOffsetFor index with
  | (_, _, some err) => some (false, some err)
  | (dataIndex, offset, none) =>
    match testField ff.data dataIndex offset firstFieldIndex with
    | none => none
    | some b => some (b, none)

def OneDFlagField.Set (ff : OneDFlagField) (index firstFieldIndex : Nat) :
    Option (OneDFlagField × Option ErrOutOfBounds) :=
  match ff.dataIndexAndOffsetFor index with
  | (_, _, some err) => some (ff, some err)
  | (dataIndex, offset, none) =>
    match orField ff.data dataIndex offset firstFieldIndex with
    | none => none
    | some data' => some ({ ff with data := data' }, none)

def OneDFlagField.Unset (ff : OneDFlagField) (index firstFieldIndex : Nat) :
    Option (OneDFlagField × Option ErrOutOfBounds) :=
  match ff.dataIndexAndOffsetFor index with
  | (_, _, some err) => some (ff, some err)
  | (dataIndex, offset, none) =>
    match clearField ff.data dataIndex offset firstFieldIndex with
    | none => none
    | some data' => some ({ ff with data := data' }, none)

def OneDFlagField.AnySet (ff : OneDFlagField) (index firstFieldIndex : Nat) (rest : List Nat) :
    Option (Bool × Option ErrOutOfBounds) :=
  match ff.dataIndexAndOffsetFor index with
  | (_, _, some err) => some (false, some err)
  | (dataIndex, offset, none) =>
    match testField ff.data dataIndex offset firstFieldIndex with
    | none => none
    | some result =>
      match anySetLoop ff.data dataIndex offset result rest with
      | none => none
      | some result => some (result, none)

/-- The method `SetField`. `none` is a panic; the array a panicking call leaves in place
(fields written before the panic) is given by `SetFieldInPlace`. -/
def OneDFlagField.SetField (ff : OneDFlagField) (index firstFieldIndex : Nat) (rest : List Nat) :
    Option (OneDFlagField × Option ErrOutOfBounds) :=
  match ff.dataIndexAndOffsetFor index with
  | (_, _, some err) => some (ff, some err)
  | (dataIndex, offset, none) =>
    match orField ff.data dataIndex offset firstFieldIndex with
    | none => none
    | some data' =>
      match setFieldLoop dataIndex offset data' rest with
      | none => none
      | some data'' => some ({ ff with data := data'' }, none)

/-- The method `UnsetField`. In the source the start word index returned by
`dataIndexAndOffsetFor` is stored back into the parameter `index`; it is named `index'`
here. `none` is a panic; the array a panicking call leaves in place is given by
`UnsetFieldInPlace`. -/
def OneDFlagField.UnsetField (ff : OneDFlagField) (index firstFieldIndex : Nat)
    (rest : List Nat) : Option (OneDFlagField × Option ErrOutOfBounds) :=
  match ff.dataIndexAndOffsetFor index with
  | (_, _, some err) => some (ff, some err)
  | (index', offset, none) =>
    match clearField ff.data index' offset firstFieldIndex with
    | none => none
    | some data' =>
      match unsetFieldLoop index' offset data' rest with
      | none => none
      | some data'' => some ({ ff with data := data'' }, none)

/-- The loop of `SetField` with the storage it leaves in place: the slice is written
word by word, so when the index of a later field panics the earlier fields are already
set. The result is the storage as left, and `true` when the loop ran to its end
(`false`: it panicked). -/
def setFieldLoopInPlace (dataIndex offset : Nat) : List Nat → List Nat → List Nat × Bool
  | data, [] => (data, true)
  | data, nextFieldIndex :: rest =>
    match orField data dataIndex offset nextFieldIndex with
    | none => (data, false)
    | some data' => setFieldLoopInPlace dataIndex offset data' rest

/-- The loop of `UnsetField` with the storage it leaves in place, as `setFieldLoopInPlace`. -/
def unsetFieldLoopInPlace (dataIndex offset : Nat) : List Nat → List Nat → List Nat × Bool
  | data, [] => (data, true)
  | data, nextFieldIndex :: rest =>
    match clearField data dataIndex offset nextFieldIndex with
    | none => (data, false)
    | some data' => unsetFieldLoopInPlace dataIndex offset data' rest

/-- The method `SetField` with the array it leaves in place also when it panics: the
first component is the array after the call, the second is `some e` for a return with
error value `e` (`some none` is a `nil` error) and `none` for a panic. `SetField` is
this function with the array of a panicking call dropped. -/
def OneDFlagField.SetFieldInPlace (ff : OneDFlagField) (index firstFieldIndex : Nat)
    (rest : List Nat) : OneDFlagField × Option (Option ErrOutOfBounds) :=
  match ff.dataIndexAndOffsetFor index with
  | (_, _, some err) => (ff, some (some err))
  | (dataIndex, offset, none) =>
    match orField ff.data dataIndex offset firstFieldIndex with
    | none => (ff, none)
    | some data' =>
      match setFieldLoopInPlace dataIndex offset data' rest with
      | (data'', true) => ({ ff with data := data'' }, some none)
      | (data'', false) => ({ ff with data := data'' }, none)

/-- The method `UnsetField` with the array it leaves in place also when it panics, as
`SetFieldInPlace`. -/
def OneDFlagField.UnsetFieldInPlace (ff : OneDFlagField) (index firstFieldIndex : Nat)
    (rest : List Nat) : OneDFlagField × Option (Option ErrOutOfBounds) :=
  match ff.dataIndexAndOffsetFor index with
  | (_, _, some err) => (ff, some (some err))
  | (index', offset, none) =>
    match clearField ff.data index' offset firstFieldIndex with
    | none => (ff, none)
    | some data' =>
      match unsetFieldLoopInPlace index' offset data' rest with
      | (data'', true) => ({ ff with data := data'' }, some none)
      | (data'', false) => ({ ff with data := data'' }, none)

/-- The constructor. `make([]uint32, dataWidth)` is the list of `dataWidth` zero words;
a failing allocation is outside the embedding. -/
def MakeOneDFlagField (fieldWidth length : Nat) : OneDFlagField :=
  let requiredBits := (length * fieldWidth) % uintMod
  let dataWidth := requiredBits / slabLength
  let dataWidth := if requiredBits % slabLength ≠ 0 then (dataWidth + 1) % uintMod else dataWidth
  { fieldWidth := fieldWidth, length := length, data := List.replicate dataWidth 0 }

/-! ## Derived notions used to state the properties -/

/-- The storage slot `(word index, bit within the word)` that an operation touches for the
pair `(index, fieldIndex)`: the result of `dataIndexAndOffsetFor` followed by
`dataFieldOffsets`, with the word index `dataIndex+uint(fromStartIndex)`. -/
def OneDFlagField.slot (ff : OneDFlagField) (index fieldIndex : Nat) : Nat × Nat :=
  let start := ff.dataIndexAndOffsetFor index
  let o := dataFieldOffsets start.2.1 fieldIndex
  ((start.1 + o.2) % uintMod, o.1)

/-- An array built by `MakeOneDFlagField(W, N)`, in any state: the two parameters are the
ones given to the constructor, the storage has the length the constructor allocated and
holds `uint32` words. -/
structure Made (W N : Nat) (ff : OneDFlagField) : Prop where
  width : ff.fieldWidth = W
  len : ff.length = N
  size : ff.data.length = (MakeOneDFlagField W N).data.length
  words : ∀ w ∈ ff.data, w < uint32Mod

/-- Calling `Set(index, f)` once for each `f` of a list, in the order of the list. -/
def applySets (ff : OneDFlagField) (index : Nat) : List Nat → Option OneDFlagField
  | [] => some ff
  | f :: fs =>
    match ff.Set index f with
    | none => none
    | some (ff', _) => applySets ff' index fs

/-- Calling `Unset(index, f)` once for each `f` of a list, in the order of the list. -/
def applyUnsets (ff : OneDFlagField) (index : Nat) : List Nat → Option OneDFlagField
  | [] => some ff
  | f :: fs =>
    match ff.Unset index f with
    | none => none
    | some (ff', _) => applyUnsets ff' index fs

/-- Read-modify-write of word `i` with the function `g`; `none` when `i` is out of range. -/
def updAt (g : Nat → Nat) (data : List Nat) (i : Nat) : Option (List Nat) :=
  match data[i]? with
  | none => none
  | some w => some (data.set i (g w))

/-- Word index computed for record `r`, field `f` of an array of field width `W`. -/
def wordIx (W r f : Nat) : Nat :=
  ((r * W % uintMod) / 32 + ((r * W % uintMod) % 32 + f) % 256 / 32) % uintMod

/-- Bit within the word computed for record `r`, field `f` of an array of field width `W`. -/
def bitIx (W r f : Nat) : Nat :=
  ((r * W % uintMod) % 32 + f) % 256 % 32

/-- The value of the flag test on the slot of record `r`, field `f` in storage `data` of an
array of field width `W`; `false` when the word is out of range. -/
def bitAt (data : List Nat) (W r f : Nat) : Bool :=
  match data[wordIx W r f]? with
  | none => false
  | some w => w &&& bitMask (bitIx W r f) == bitMask (bitIx W r f)

/-- One call of a mutating method of the array, with its arguments. -/
inductive Call where
  | set (index fieldIndex : Nat)
  | unset (index fieldIndex : Nat)
  | setField (index firstFieldIndex : Nat) (rest : List Nat)
  | unsetField (index firstFieldIndex : Nat) (rest : List Nat)

/-- The method call on the array `ff`. -/
def Call.apply (ff : OneDFlagField) : Call → Option (OneDFlagField × Option ErrOutOfBounds)
  | .set i f => ff.Set i f
  | .unset i f => ff.Unset i f
  | .setField i f0 rest => ff.SetField i f0 rest
  | .unsetField i f0 rest => ff.UnsetField i f0 rest

/-- The field indices a call names. -/
def Call.fields : Call → List Nat
  | .set _ f => [f]
  | .unset _ f => [f]
  | .setField _ f0 rest => f0 :: rest
  | .unsetField _ f0 rest => f0 :: rest

/-- Running a sequence of calls in order on the array; the error value of each call is
dropped (a failing call is followed by the next one), `none` when a call panics. -/
def runCalls (ff : OneDFlagField) : List Call → Option OneDFlagField
  | [] => some ff
  | c :: cs =>
    match c.apply ff with
    | none => none
    | some (ff', _) => runCalls ff' cs

/-- The storage bit at absolute bit position `p`: bit `p mod 32` of word `p / 32`;
`false` beyond the storage. -/
def storageBit (data : List Nat) (p : Nat) : Bool :=
  match data[p / 32]? with
  | none => false
  | some w => w.testBit (p % 32)

/-- Every storage bit at an absolute bit position at or beyond `total` is `0`. -/
def PaddingClear (data : List Nat) (total : Nat) : Prop :=
  ∀ p, total ≤ p → storageBit data p = false

/-! ## Address arithmetic -/

theorem dataFieldOffsets_eq (s f : Nat) :
    dataFieldOffsets s f = (((s + f) % 256) % 32, ((s + f) % 256) / 32) := by
  simp only [dataFieldOffsets, byteMod, uintMod, log2ForSlabLength,
    Nat.shiftRight_eq_div_pow, Nat.shiftLeft_eq]
  refine Prod.ext ?_ rfl
  simp only
  omega

theorem dataIndexAndOffsetFor_of_lt (ff : OneDFlagField) (index : Nat) (h : index < ff.length) :
    ff.dataIndexAndOffsetFor index =
      ((index * ff.fieldWidth % uintMod) / 32, (index * ff.fieldWidth % uintMod) % 32, none) := by
  have h31 : slabLength - 1 = 2 ^ 5 - 1 := rfl
  simp only [OneDFlagField.dataIndexAndOffsetFor, OneDFlagField.Len, ge_iff_le,
    Nat.not_le.mpr h, if_false, log2ForSlabLength, Nat.shiftRight_eq_div_pow, h31,
    Nat.and_pow_two_sub_one_eq_mod, byteMod]
  refine Prod.ext rfl (Prod.ext ?_ rfl)
  simp only
  omega

theorem dataIndexAndOffsetFor_of_ge (ff : OneDFlagField) (index : Nat) (h : ff.length ≤ index) :
    ff.dataIndexAndOffsetFor index = (0, 0, some ⟨"index", ff.length, index⟩) := by
  simp [OneDFlagField.dataIndexAndOffsetFor, OneDFlagField.Len, h]

theorem bitMask_of_lt (l : Nat) (h : l < 32) : bitMask l = 2 ^ l := by
  unfold bitMask uint32Mod
  rw [Nat.one_shiftLeft]
  exact Nat.mod_eq_of_lt (Nat.pow_lt_pow_right (by decide) h)

theorem updAt_of_lt (g : Nat → Nat) (data : List Nat) (i : Nat) (h : i < data.length) :
    updAt g data i = some (data.set i (g data[i])) := by
  simp [updAt, List.getElem?_eq_getElem h]

theorem updAt_of_ge (g : Nat → Nat) (data : List Nat) (i : Nat) (h : data.length ≤ i) :
    updAt g data i = none := by
  simp [updAt, List.getElem?_eq_none h]

theorem updAt_length (g : Nat → Nat) (data data' : List Nat) (i : Nat)
    (h : updAt g data i = some data') : data'.length = data.length := by
  unfold updAt at h
  split at h
  · cases h
  · cases h; simp

theorem updAt_comm (g h : Nat → Nat) (hc : ∀ w, g (h w) = h (g w)) (data : List Nat)
    (i j : Nat) :
    (updAt g data i).bind (fun d => updAt h d j) = (updAt h data j).bind (fun d => updAt g d i) := by
  by_cases hi : i < data.length
  · by_cases hj : j < data.length
    · rw [updAt_of_lt g data i hi, updAt_of_lt h data j hj]
      simp only [Option.some_bind]
      rw [updAt_of_lt h _ j (by simpa using hj), updAt_of_lt g _ i (by simpa using hi)]
      by_cases hij : i = j
      · subst hij
        simp [List.set_set, hc]
      · simp only [List.getElem_set_ne hij, List.getElem_set_ne (Ne.symm hij)]
        rw [List.set_comm _ _ _ hij]
    · have hj' : data.length ≤ j := Nat.le_of_not_lt hj
      rw [updAt_of_ge h data j hj', updAt_of_lt g data i hi]
      simp only [Option.some_bind, Option.none_bind]
      exact updAt_of_ge h _ j (by simpa using hj')
  · have hi' : data.length ≤ i := Nat.le_of_not_lt hi
    rw [updAt_of_ge g data i hi']
    simp only [Option.none_bind]
    cases hres : updAt h data j with
    | none => rfl
    | some d =>
      simp only [Option.some_bind]
      exact (updAt_of_ge g d i (by rw [updAt_length h data d j hres]; exact hi')).symm

theorem orField_eq (data : List Nat) (dataIndex offset f : Nat) :
    orField data dataIndex offset f =
      updAt (fun w => w ||| bitMask ((offset + f) % 256 % 32)) data
        ((dataIndex + (offset + f) % 256 / 32) % uintMod) := by
  simp only [orField, dataFieldOffsets_eq, readWord, writeWord, updAt]
  cases hget : data[(dataIndex + (offset + f) % 256 / 32) % uintMod]? with
  | none => rfl
  | some w =>
    have hlt := (List.getElem?_eq_some_iff.mp hget).1
    simp [hlt]

theorem clearField_eq (data : List Nat) (dataIndex offset f : Nat) :
    clearField data dataIndex offset f =
      updAt (fun w => w &&& not32 (bitMask ((offset + f) % 256 % 32))) data
        ((dataIndex + (offset + f) % 256 / 32) % uintMod) := by
  simp only [clearField, dataFieldOffsets_eq, readWord, writeWord, updAt]
  cases hget : data[(dataIndex + (offset + f) % 256 / 32) % uintMod]? with
  | none => rfl
  | some w =>
    have hlt := (List.getElem?_eq_some_iff.mp hget).1
    simp [hlt]

theorem testField_eq (data : List Nat) (dataIndex offset f : Nat) :
    testField data dataIndex offset f =
      (data[(dataIndex + (offset + f) % 256 / 32) % uintMod]?).map
        (fun w => w &&& bitMask ((offset + f) % 256 % 32) == bitMask ((offset + f) % 256 % 32)) := by
  simp only [testField, dataFieldOffsets_eq, readWord]
  cases data[(dataIndex + (offset + f) % 256 / 32) % uintMod]? <;> rfl

theorem slot_of_lt (ff : OneDFlagField) (r f : Nat) (h : r < ff.length) :
    ff.slot r f = (wordIx ff.fieldWidth r f, bitIx ff.fieldWidth r f) := by
  simp only [OneDFlagField.slot, dataIndexAndOffsetFor_of_lt ff r h, dataFieldOffsets_eq,
    wordIx, bitIx]

theorem bitIx_lt (W r f : Nat) : bitIx W r f < 32 := by
  unfold bitIx
  omega

theorem makeOneDFlagField_length (W N : Nat) (hfit : N * W < uintMod) :
    (MakeOneDFlagField W N).data.length = (N * W + 31) / 32 := by
  simp only [MakeOneDFlagField, uintMod, slabLength, List.length_replicate] at *
  split <;> omega

theorem wordIx_lt (W N r f : Nat) (hfit : N * W < uintMod) (hr : r < N) (hf : f < W) :
    wordIx W r f < (MakeOneDFlagField W N).data.length := by
  have h1 : r * W + W ≤ N * W := by
    have := Nat.mul_le_mul_right W (Nat.succ_le_of_lt hr)
    rwa [Nat.succ_mul] at this
  rw [makeOneDFlagField_length W N hfit]
  unfold wordIx
  simp only [uintMod] at *
  generalize r * W = B at *
  generalize N * W = T at *
  omega

/-! ## Normal forms of the single-field operations -/

theorem isSet_of_lt (ff : OneDFlagField) (r f : Nat) (h : r < ff.length) :
    ff.IsSet r f = (ff.data[wordIx ff.fieldWidth r f]?).map
      (fun w => (w &&& bitMask (bitIx ff.fieldWidth r f) == bitMask (bitIx ff.fieldWidth r f),
        none)) := by
  simp only [OneDFlagField.IsSet, dataIndexAndOffsetFor_of_lt ff r h, testField_eq, wordIx,
    bitIx]
  cases ff.data[(r * ff.fieldWidth % uintMod / 32 +
    (r * ff.fieldWidth % uintMod % 32 + f) % 256 / 32) % uintMod]? <;> rfl

theorem set_of_lt (ff : OneDFlagField) (r f : Nat) (h : r < ff.length) :
    ff.Set r f = (updAt (fun w => w ||| bitMask (bitIx ff.fieldWidth r f)) ff.data
      (wordIx ff.fieldWidth r f)).map (fun d => ({ ff with data := d }, none)) := by
  simp only [OneDFlagField.Set, dataIndexAndOffsetFor_of_lt ff r h, orField_eq, wordIx, bitIx]
  cases updAt (fun w => w ||| bitMask ((r * ff.fieldWidth % uintMod % 32 + f) % 256 % 32))
    ff.data ((r * ff.fieldWidth % uintMod / 32 +
    (r * ff.fieldWidth % uintMod % 32 + f) % 256 / 32) % uintMod) <;> rfl

theorem unset_of_lt (ff : OneDFlagField) (r f : Nat) (h : r < ff.length) :
    ff.Unset r f = (updAt (fun w => w &&& not32 (bitMask (bitIx ff.fieldWidth r f))) ff.data
      (wordIx ff.fieldWidth r f)).map (fun d => ({ ff with data := d }, none)) := by
  simp only [OneDFlagField.Unset, dataIndexAndOffsetFor_of_lt ff r h, clearField_eq, wordIx,
    bitIx]
  cases updAt (fun w => w &&& not32 (bitMask ((r * ff.fieldWidth % uintMod % 32 + f) % 256 % 32)))
    ff.data ((r * ff.fieldWidth % uintMod / 32 +
    (r * ff.fieldWidth % uintMod % 32 + f) % 256 / 32) % uintMod) <;> rfl

/-! ## Bit identities on one word -/

theorem or_and_two_pow (w l : Nat) : (w ||| 2 ^ l) &&& 2 ^ l = 2 ^ l := by
  apply Nat.eq_of_testBit_eq
  intro i
  simp only [Nat.testBit_and, Nat.testBit_or, Nat.testBit_two_pow]
  cases w.testBit i <;> simp

theorem and_not32_and_two_pow (w l : Nat) (hl : l < 32) :
    (w &&& not32 (2 ^ l)) &&& 2 ^ l = 0 := by
  apply Nat.eq_of_testBit_eq
  intro i
  have h32 : uint32Mod - 1 = 2 ^ 32 - 1 := rfl
  simp only [not32, h32, Nat.testBit_and, Nat.testBit_xor, Nat.testBit_two_pow,
    Nat.testBit_two_pow_sub_one, Nat.zero_testBit]
  by_cases h : l = i
  · subst h
    simp [hl]
  · simp [h]

theorem and_not32_idem (w m : Nat) : (w &&& not32 m) &&& not32 m = w &&& not32 m := by
  rw [Nat.and_assoc, Nat.and_self]

theorem or_right_comm (w a b : Nat) : (w ||| a) ||| b = (w ||| b) ||| a := by
  rw [Nat.or_assoc, Nat.or_comm a b, ← Nat.or_assoc]

theorem and_right_comm (w a b : Nat) : (w &&& a) &&& b = (w &&& b) &&& a := by
  rw [Nat.and_assoc, Nat.and_comm a b, ← Nat.and_assoc]

/-! ## Preservation of the array shape -/

theorem bitMask_lt (l : Nat) : bitMask l < uint32Mod :=
  Nat.mod_lt _ (by decide)

theorem updAt_words (g : Nat → Nat) (hg : ∀ w, w < uint32Mod → g w < uint32Mod)
    (data data' : List Nat) (i : Nat) (hw : ∀ w ∈ data, w < uint32Mod)
    (h : updAt g data i = some data') : ∀ w ∈ data', w < uint32Mod := by
  unfold updAt at h
  split at h
  · cases h
  · rename_i w0 hget
    cases h
    intro w hmem
    rcases List.mem_or_eq_of_mem_set hmem with hin | heq
    · exact hw w hin
    · rw [heq]
      exact hg w0 (hw w0 (List.getElem?_mem hget))

theorem or_bitMask_lt (l w : Nat) (h : w < uint32Mod) : w ||| bitMask l < uint32Mod :=
  Nat.or_lt_two_pow h (bitMask_lt l)

theorem and_not32_lt (m w : Nat) (h : w < uint32Mod) : w &&& not32 m < uint32Mod :=
  Nat.lt_of_le_of_lt Nat.and_le_left h

theorem made_of_updAt (W N : Nat) (ff : OneDFlagField) (g : Nat → Nat)
    (hg : ∀ w, w < uint32Mod → g w < uint32Mod) (i : Nat) (d : List Nat)
    (hm : Made W N ff) (h : updAt g ff.data i = some d) : Made W N { ff with data := d } :=
  ⟨hm.width, hm.len, (updAt_length g ff.data d i h).trans hm.size,
    updAt_words g hg ff.data d i hm.words h⟩

/-! ## Claims C1 and C2: the 8-bit sum of start offset and field index -/

/-- C1: evaluation at the failing input. On `MakeOneDFlagField(255, 2)` the flag
`(1, 225)` has absolute bit position `1*255 + 225 = 480`, that is bit 0 of word 15.
`Set(1, 225)` returns no error, leaves word 15 zero and sets bit 0 of word 7 instead
(position 224), and `IsSet(1, 225)` then answers true although bit 480 is 0. -/
theorem set_misses_position_at_width_255 :
    (1 * 255 + 225) / 32 = 15 ∧ (1 * 255 + 225) % 32 = 0 ∧
    (MakeOneDFlagField 255 2).slot 1 225 = (7, 0) ∧
    (MakeOneDFlagField 255 2).Set 1 225 =
      some (⟨255, 2, [0, 0, 0, 0, 0, 0, 0, 1, 0, 0, 0, 0, 0, 0, 0, 0]⟩, none) ∧
    (⟨255, 2, [0, 0, 0, 0, 0, 0, 0, 1, 0, 0, 0, 0, 0, 0, 0, 0]⟩ : OneDFlagField).IsSet 1 225 =
      some (true, none) := by
  decide

/-- C2: evaluation at the failing input. On `MakeOneDFlagField(255, 2)` the valid pairs
`(1, 225)` and `(0, 224)` are different, `IsSet(0, 224)` is false on the fresh array,
`Set(1, 225)` returns no error, and afterwards `IsSet(0, 224)` is true: setting a field of
record 1 changed a field of record 0. -/
theorem set_changes_other_record_at_width_255 :
    (MakeOneDFlagField 255 2).IsSet 0 224 = some (false, none) ∧
    ∃ ff', (MakeOneDFlagField 255 2).Set 1 225 = some (ff', none) ∧
      ff'.IsSet 0 224 = some (true, none) := by
  refine ⟨by decide, ⟨255, 2, [0, 0, 0, 0, 0, 0, 0, 1, 0, 0, 0, 0, 0, 0, 0, 0]⟩, by decide, by decide⟩

/-! ## Claim C3: Set / IsSet round trip -/

/-- C3, as stated, fails where the bit count wraps: `MakeOneDFlagField(2, 2^63)` computes
`requiredBits = 2^64 mod 2^64 = 0` and allocates no word, so for the valid pair `(0, 0)`
the call `Set(0, 0)` indexes an empty slice and panics instead of returning. -/
theorem wrapped_bit_count_set_panics :
    0 < 2 ^ 63 ∧ 0 < 2 ∧ (MakeOneDFlagField 2 (2 ^ 63)).data = [] ∧
    (MakeOneDFlagField 2 (2 ^ 63)).Set 0 0 = none := by
  decide

/-- C3 (amended): for every array made by `MakeOneDFlagField(W, N)` with `N * W < 2^64`,
in any state, every record index `r < N` and field index `f < W`: `Set(r, f)` returns no
error, and `IsSet(r, f)` on the resulting array returns `(true, nil)`. -/
theorem roundtrip_set_isSet (W N : Nat) (ff : OneDFlagField) (r f : Nat)
    (hfit : N * W < uintMod) (hm : Made W N ff) (hr : r < N) (hf : f < W) :
    ∃ ff', ff.Set r f = some (ff', none) ∧ ff'.IsSet r f = some (true, none) := by
  obtain ⟨W0, N0, data⟩ := ff
  obtain ⟨hw, hl, hs, -⟩ := hm
  simp only at hw hl hs
  subst hw hl
  have hi : wordIx W0 r f < data.length := hs ▸ wordIx_lt W0 N0 r f hfit hr hf
  have hb := bitMask_of_lt _ (bitIx_lt W0 r f)
  refine ⟨⟨W0, N0, data.set (wordIx W0 r f) (data[wordIx W0 r f] ||| bitMask (bitIx W0 r f))⟩,
    ?_, ?_⟩
  · rw [set_of_lt _ r f hr, updAt_of_lt _ _ _ hi]
    rfl
  · rw [isSet_of_lt ⟨W0, N0, _⟩ r f hr]
    simp only [List.getElem?_set_self hi, Option.map_some', hb, or_and_two_pow, beq_self_eq_true]

/-- Witness for C3: record 2, field 4 of a fresh `MakeOneDFlagField(9, 5)`. -/
theorem roundtrip_set_isSet_witness :
    ∃ ff', (MakeOneDFlagField 9 5).Set 2 4 = some (ff', none) ∧
      ff'.IsSet 2 4 = some (true, none) :=
  roundtrip_set_isSet 9 5 (MakeOneDFlagField 9 5) 2 4 (by decide)
    ⟨rfl, rfl, rfl, by decide⟩ (by decide) (by decide)

/-! ## Claim C4: Unset / IsSet round trip, idempotence -/

/-- C4, as stated, fails where the bit count wraps: `MakeOneDFlagField(4, 2^62)` allocates
no word (`2^62 * 4` is `0` modulo `2^64`), so `Unset(0, 0)` on the valid pair `(0, 0)`
panics and no `IsSet` result follows it. -/
theorem wrapped_bit_count_unset_panics :
    0 < 2 ^ 62 ∧ 0 < 4 ∧ (MakeOneDFlagField 4 (2 ^ 62)).data = [] ∧
    (MakeOneDFlagField 4 (2 ^ 62)).Unset 0 0 = none ∧
    (MakeOneDFlagField 4 (2 ^ 62)).IsSet 0 0 = none := by
  decide

/-- C4 (amended): for every array made by `MakeOneDFlagField(W, N)` with `N * W < 2^64`,
in any state, every record index `r < N` and field index `f < W`: `Unset(r, f)` returns no
error, `IsSet(r, f)` on the resulting array returns `(false, nil)`, and a second
`Unset(r, f)` returns the very same array (same storage, width and length). -/
theorem roundtrip_unset_isSet (W N : Nat) (ff : OneDFlagField) (r f : Nat)
    (hfit : N * W < uintMod) (hm : Made W N ff) (hr : r < N) (hf : f < W) :
    ∃ ff', ff.Unset r f = some (ff', none) ∧ ff'.IsSet r f = some (false, none) ∧
      ff'.Unset r f = some (ff', none) := by
  obtain ⟨W0, N0, data⟩ := ff
  obtain ⟨hw, hl, hs, -⟩ := hm
  simp only at hw hl hs
  subst hw hl
  have hi : wordIx W0 r f < data.length := hs ▸ wordIx_lt W0 N0 r f hfit hr hf
  have hlt := bitIx_lt W0 r f
  have hb := bitMask_of_lt _ hlt
  have hi' : wordIx W0 r f <
      (data.set (wordIx W0 r f) (data[wordIx W0 r f] &&& not32 (bitMask (bitIx W0 r f)))).length := by
    simpa using hi
  refine ⟨⟨W0, N0, data.set (wordIx W0 r f)
    (data[wordIx W0 r f] &&& not32 (bitMask (bitIx W0 r f)))⟩, ?_, ?_, ?_⟩
  · rw [unset_of_lt _ r f hr, updAt_of_lt _ _ _ hi]
    rfl
  · rw [isSet_of_lt ⟨W0, N0, _⟩ r f hr]
    have hne : (0 : Nat) ≠ 2 ^ bitIx W0 r f := (Nat.pos_pow_of_pos _ (by decide)).ne
    simp only [List.getElem?_set_self hi, Option.map_some', hb,
      and_not32_and_two_pow _ _ hlt]
    simp [hne]
  · rw [unset_of_lt ⟨W0, N0, _⟩ r f hr, updAt_of_lt _ _ _ hi']
    simp only [List.getElem_set_self, and_not32_idem, List.set_set, Option.map_some']

/-- Witness for C4: record 4, field 5 of `MakeOneDFlagField(9, 5)` after
fields 0, 5 and 8 of record 4 were set (storage words `[0, 4624]`). -/
theorem roundtrip_unset_isSet_witness :
    ∃ ff', (⟨9, 5, [0, 4624]⟩ : OneDFlagField).Unset 4 5 = some (ff', none) ∧
      ff'.IsSet 4 5 = some (false, none) ∧ ff'.Unset 4 5 = some (ff', none) :=
  roundtrip_unset_isSet 9 5 ⟨9, 5, [0, 4624]⟩ 4 5 (by decide)
    ⟨rfl, rfl, rfl, by decide⟩ (by decide) (by decide)

/-! ## Claim C5: AllSet and AnySet against IsSet -/

theorem allSetLoop_eq (data : List Nat) (dataIndex offset : Nat) (t : Nat → Bool) :
    ∀ (l : List Nat) (b : Bool), (∀ f ∈ l, testField data dataIndex offset f = some (t f)) →
      allSetLoop data dataIndex offset b l = some (b && l.all t) := by
  intro l
  induction l with
  | nil => intro b _; simp [allSetLoop]
  | cons x xs ih =>
    intro b h
    have hx := h x (List.mem_cons_self x xs)
    have hxs : ∀ f ∈ xs, testField data dataIndex offset f = some (t f) :=
      fun f hf => h f (List.mem_cons_of_mem x hf)
    cases b with
    | true => simp [allSetLoop, hx, ih _ hxs]
    | false => simp [allSetLoop, ih _ hxs]

theorem anySetLoop_eq (data : List Nat) (dataIndex offset : Nat) (t : Nat → Bool) :
    ∀ (l : List Nat) (b : Bool), (∀ f ∈ l, testField data dataIndex offset f = some (t f)) →
      anySetLoop data dataIndex offset b l = some (b || l.any t) := by
  intro l
  induction l with
  | nil => intro b _; simp [anySetLoop]
  | cons x xs ih =>
    intro b h
    have hx := h x (List.mem_cons_self x xs)
    have hxs : ∀ f ∈ xs, testField data dataIndex offset f = some (t f) :=
      fun f hf => h f (List.mem_cons_of_mem x hf)
    cases b with
    | true => simp [anySetLoop, ih _ hxs]
    | false => simp [anySetLoop, hx, ih _ hxs]

theorem testField_start (data : List Nat) (W r f : Nat) (hi : wordIx W r f < data.length) :
    testField data (r * W % uintMod / 32) (r * W % uintMod % 32) f = some (bitAt data W r f) := by
  rw [testField_eq]
  simp only [bitAt, wordIx, bitIx] at *
  rw [List.getElem?_eq_getElem hi]
  rfl

theorem isSet_eq_bitAt (W N : Nat) (data : List Nat) (r f : Nat) (hr : r < N)
    (hi : wordIx W r f < data.length) :
    (OneDFlagField.mk W N data).IsSet r f = some (bitAt data W r f, none) := by
  rw [isSet_of_lt _ r f hr]
  simp only [bitAt, List.getElem?_eq_getElem hi, Option.map_some']

theorem allSet_eq_all (W N : Nat) (data : List Nat) (r f0 : Nat) (rest : List Nat) (hr : r < N)
    (hi : ∀ f ∈ f0 :: rest, wordIx W r f < data.length) :
    (OneDFlagField.mk W N data).AllSet r f0 rest =
      some ((f0 :: rest).all (bitAt data W r), none) := by
  have h0 := testField_start data W r f0 (hi f0 (List.mem_cons_self _ _))
  have hl := allSetLoop_eq data (r * W % uintMod / 32) (r * W % uintMod % 32) (bitAt data W r)
    rest (bitAt data W r f0)
    (fun f hf => testField_start data W r f (hi f (List.mem_cons_of_mem _ hf)))
  simp only [OneDFlagField.AllSet, dataIndexAndOffsetFor_of_lt ⟨W, N, data⟩ r hr, h0, hl,
    List.all_cons]

theorem anySet_eq_any (W N : Nat) (data : List Nat) (r f0 : Nat) (rest : List Nat) (hr : r < N)
    (hi : ∀ f ∈ f0 :: rest, wordIx W r f < data.length) :
    (OneDFlagField.mk W N data).AnySet r f0 rest =
      some ((f0 :: rest).any (bitAt data W r), none) := by
  have h0 := testField_start data W r f0 (hi f0 (List.mem_cons_self _ _))
  have hl := anySetLoop_eq data (r * W % uintMod / 32) (r * W % uintMod % 32) (bitAt data W r)
    rest (bitAt data W r f0)
    (fun f hf => testField_start data W r f (hi f (List.mem_cons_of_mem _ hf)))
  simp only [OneDFlagField.AnySet, dataIndexAndOffsetFor_of_lt ⟨W, N, data⟩ r hr, h0, hl,
    List.any_cons]

/-- C5, as stated, fails where the bit count wraps. `MakeOneDFlagField(3, N)` with
`N = 6148914691236517206` has `3 * N = 2^64 + 2`, so one word is allocated. Record 10 is a
valid record and starts at bit 30: its field 0 lies in word 0, its field 2 would lie in
word 1. After `Set(10, 0)`, `IsSet(10, 0)` is true, yet `AnySet(10, 2, 0)` panics on
reading field 2 and does not return true. -/
theorem anySet_panics_beside_a_set_field :
    10 < 6148914691236517206 ∧ 3 * 6148914691236517206 = 2 ^ 64 + 2 ∧
    (MakeOneDFlagField 3 6148914691236517206).Set 10 0 =
      some (⟨3, 6148914691236517206, [1073741824]⟩, none) ∧
    (⟨3, 6148914691236517206, [1073741824]⟩ : OneDFlagField).IsSet 10 0 = some (true, none) ∧
    (⟨3, 6148914691236517206, [1073741824]⟩ : OneDFlagField).AnySet 10 2 [0] = none := by
  decide

/-- C5 (amended): for every array made by `MakeOneDFlagField(W, N)` with `N * W < 2^64`,
in any state, every record index `r < N` and every non-empty list of field indices
`f0, rest...` below `W`: `AllSet` and `AnySet` return without error; `AllSet` returns true
iff `IsSet(r, f)` is true for every `f` of the list, and `AnySet` returns true iff
`IsSet(r, f)` is true for at least one `f` of the list. -/
theorem allSet_anySet_agree_with_isSet (W N : Nat) (ff : OneDFlagField) (r f0 : Nat)
    (rest : List Nat) (hfit : N * W < uintMod) (hm : Made W N ff) (hr : r < N)
    (hf : ∀ f ∈ f0 :: rest, f < W) :
    ∃ a o, ff.AllSet r f0 rest = some (a, none) ∧ ff.AnySet r f0 rest = some (o, none) ∧
      (a = true ↔ ∀ f ∈ f0 :: rest, ff.IsSet r f = some (true, none)) ∧
      (o = true ↔ ∃ f ∈ f0 :: rest, ff.IsSet r f = some (true, none)) := by
  obtain ⟨W0, N0, data⟩ := ff
  obtain ⟨hw, hl, hs, -⟩ := hm
  simp only at hw hl hs
  subst hw hl
  have hi : ∀ f ∈ f0 :: rest, wordIx W0 r f < data.length :=
    fun f hmem => hs ▸ wordIx_lt W0 N0 r f hfit hr (hf f hmem)
  have his : ∀ f ∈ f0 :: rest,
      ((OneDFlagField.mk W0 N0 data).IsSet r f = some (true, none) ↔ bitAt data W0 r f = true) := by
    intro f hmem
    rw [isSet_eq_bitAt W0 N0 data r f hr (hi f hmem)]
    simp
  refine ⟨_, _, allSet_eq_all W0 N0 data r f0 rest hr hi, anySet_eq_any W0 N0 data r f0 rest hr hi,
    ?_, ?_⟩
  · rw [List.all_eq_true]
    exact ⟨fun h f hmem => (his f hmem).mpr (h f hmem), fun h f hmem => (his f hmem).mp (h f hmem)⟩
  · rw [List.any_eq_true]
    exact ⟨fun ⟨f, hmem, h⟩ => ⟨f, hmem, (his f hmem).mpr h⟩,
      fun ⟨f, hmem, h⟩ => ⟨f, hmem, (his f hmem).mp h⟩⟩

/-- Witness for C5: record 4 with fields 0, 5, 8 on the
array `MakeOneDFlagField(9, 5)` whose storage is `[0, 4112]` (fields 0 and 8 of
record 4 set). -/
theorem allSet_anySet_agree_with_isSet_witness :
    ∃ a o, (⟨9, 5, [0, 4112]⟩ : OneDFlagField).AllSet 4 0 [5, 8] = some (a, none) ∧
      (⟨9, 5, [0, 4112]⟩ : OneDFlagField).AnySet 4 0 [5, 8] = some (o, none) ∧
      (a = true ↔ ∀ f ∈ [0, 5, 8], (⟨9, 5, [0, 4112]⟩ : OneDFlagField).IsSet 4 f =
        some (true, none)) ∧
      (o = true ↔ ∃ f ∈ [0, 5, 8], (⟨9, 5, [0, 4112]⟩ : OneDFlagField).IsSet 4 f =
        some (true, none)) :=
  allSet_anySet_agree_with_isSet 9 5 ⟨9, 5, [0, 4112]⟩ 4 0 [5, 8] (by decide)
    ⟨rfl, rfl, rfl, by decide⟩ (by decide) (by decide)

/-! ## Claims C6 and C7: the batch writes against repeated single writes -/

theorem setFieldLoop_cons (dataIndex offset : Nat) (data : List Nat) (f : Nat) (l : List Nat) :
    setFieldLoop dataIndex offset data (f :: l) =
      (orField data dataIndex offset f).bind (fun d => setFieldLoop dataIndex offset d l) := by
  cases h : orField data dataIndex offset f <;> simp [setFieldLoop, h]

theorem unsetFieldLoop_cons (dataIndex offset : Nat) (data : List Nat) (f : Nat) (l : List Nat) :
    unsetFieldLoop dataIndex offset data (f :: l) =
      (clearField data dataIndex offset f).bind (fun d => unsetFieldLoop dataIndex offset d l) := by
  cases h : clearField data dataIndex offset f <;> simp [unsetFieldLoop, h]

theorem orField_comm (dataIndex offset : Nat) (data : List Nat) (a b : Nat) :
    (orField data dataIndex offset a).bind (fun d => orField d dataIndex offset b) =
      (orField data dataIndex offset b).bind (fun d => orField d dataIndex offset a) := by
  simp only [orField_eq]
  exact updAt_comm _ _ (fun w => or_right_comm w _ _) data _ _

theorem clearField_comm (dataIndex offset : Nat) (data : List Nat) (a b : Nat) :
    (clearField data dataIndex offset a).bind (fun d => clearField d dataIndex offset b) =
      (clearField data dataIndex offset b).bind (fun d => clearField d dataIndex offset a) := by
  simp only [clearField_eq]
  exact updAt_comm _ _ (fun w => and_right_comm w _ _) data _ _

theorem setFieldLoop_perm (dataIndex offset : Nat) {l₁ l₂ : List Nat} (hp : l₁.Perm l₂) :
    ∀ data, setFieldLoop dataIndex offset data l₁ = setFieldLoop dataIndex offset data l₂ := by
  induction hp with
  | nil => intro data; rfl
  | cons x _ ih =>
    intro data
    simp only [setFieldLoop_cons]
    congr 1
    funext d
    exact ih d
  | swap x y l =>
    intro data
    simp only [setFieldLoop_cons, ← Option.bind_assoc]
    rw [orField_comm]
  | trans _ _ ih₁ ih₂ => intro data; rw [ih₁ data, ih₂ data]

theorem unsetFieldLoop_perm (dataIndex offset : Nat) {l₁ l₂ : List Nat} (hp : l₁.Perm l₂) :
    ∀ data, unsetFieldLoop dataIndex offset data l₁ = unsetFieldLoop dataIndex offset data l₂ := by
  induction hp with
  | nil => intro data; rfl
  | cons x _ ih =>
    intro data
    simp only [unsetFieldLoop_cons]
    congr 1
    funext d
    exact ih d
  | swap x y l =>
    intro data
    simp only [unsetFieldLoop_cons, ← Option.bind_assoc]
    rw [clearField_comm]
  | trans _ _ ih₁ ih₂ => intro data; rw [ih₁ data, ih₂ data]

theorem applySets_of_ge (W N : Nat) (r : Nat) (hr : N ≤ r) :
    ∀ (l : List Nat) (data : List Nat),
      applySets ⟨W, N, data⟩ r l = some ⟨W, N, data⟩ := by
  intro l
  induction l with
  | nil => intro data; rfl
  | cons f fs ih =>
    intro data
    simp only [applySets, OneDFlagField.Set,
      dataIndexAndOffsetFor_of_ge ⟨W, N, data⟩ r hr]
    exact ih data

theorem applyUnsets_of_ge (W N : Nat) (r : Nat) (hr : N ≤ r) :
    ∀ (l : List Nat) (data : List Nat),
      applyUnsets ⟨W, N, data⟩ r l = some ⟨W, N, data⟩ := by
  intro l
  induction l with
  | nil => intro data; rfl
  | cons f fs ih =>
    intro data
    simp only [applyUnsets, OneDFlagField.Unset,
      dataIndexAndOffsetFor_of_ge ⟨W, N, data⟩ r hr]
    exact ih data

theorem applySets_of_lt (W N : Nat) (r : Nat) (hr : r < N) :
    ∀ (l : List Nat) (data : List Nat),
      applySets ⟨W, N, data⟩ r l =
        (setFieldLoop (r * W % uintMod / 32) (r * W % uintMod % 32) data l).map
          (fun d => ⟨W, N, d⟩) := by
  intro l
  induction l with
  | nil => intro data; rfl
  | cons f fs ih =>
    intro data
    simp only [applySets, OneDFlagField.Set, dataIndexAndOffsetFor_of_lt ⟨W, N, data⟩ r hr,
      setFieldLoop]
    cases orField data (r * W % uintMod / 32) (r * W % uintMod % 32) f with
    | none => rfl
    | some d => exact ih d

theorem applyUnsets_of_lt (W N : Nat) (r : Nat) (hr : r < N) :
    ∀ (l : List Nat) (data : List Nat),
      applyUnsets ⟨W, N, data⟩ r l =
        (unsetFieldLoop (r * W % uintMod / 32) (r * W % uintMod % 32) data l).map
          (fun d => ⟨W, N, d⟩) := by
  intro l
  induction l with
  | nil => intro data; rfl
  | cons f fs ih =>
    intro data
    simp only [applyUnsets, OneDFlagField.Unset, dataIndexAndOffsetFor_of_lt ⟨W, N, data⟩ r hr,
      unsetFieldLoop]
    cases clearField data (r * W % uintMod / 32) (r * W % uintMod % 32) f with
    | none => rfl
    | some d => exact ih d

theorem setField_of_lt (W N : Nat) (data : List Nat) (r f0 : Nat) (rest : List Nat)
    (hr : r < N) :
    (OneDFlagField.mk W N data).SetField r f0 rest =
      (setFieldLoop (r * W % uintMod / 32) (r * W % uintMod % 32) data (f0 :: rest)).map
        (fun d => (⟨W, N, d⟩, none)) := by
  simp only [OneDFlagField.SetField, dataIndexAndOffsetFor_of_lt ⟨W, N, data⟩ r hr, setFieldLoop]
  cases orField data (r * W % uintMod / 32) (r * W % uintMod % 32) f0 with
  | none => rfl
  | some d =>
    simp only
    cases setFieldLoop (r * W % uintMod / 32) (r * W % uintMod % 32) d rest <;> rfl

theorem unsetField_of_lt (W N : Nat) (data : List Nat) (r f0 : Nat) (rest : List Nat)
    (hr : r < N) :
    (OneDFlagField.mk W N data).UnsetField r f0 rest =
      (unsetFieldLoop (r * W % uintMod / 32) (r * W % uintMod % 32) data (f0 :: rest)).map
        (fun d => (⟨W, N, d⟩, none)) := by
  simp only [OneDFlagField.UnsetField, dataIndexAndOffsetFor_of_lt ⟨W, N, data⟩ r hr,
    unsetFieldLoop]
  cases clearField data (r * W % uintMod / 32) (r * W % uintMod % 32) f0 with
  | none => rfl
  | some d =>
    simp only
    cases unsetFieldLoop (r * W % uintMod / 32) (r * W % uintMod % 32) d rest <;> rfl

theorem setFieldLoop_ok (W r : Nat) :
    ∀ (l : List Nat) (data : List Nat), (∀ f ∈ l, wordIx W r f < data.length) →
      (∀ w ∈ data, w < uint32Mod) →
      ∃ d, setFieldLoop (r * W % uintMod / 32) (r * W % uintMod % 32) data l = some d ∧
        d.length = data.length ∧ ∀ w ∈ d, w < uint32Mod := by
  intro l
  induction l with
  | nil => intro data _ hw; exact ⟨data, rfl, rfl, hw⟩
  | cons f fs ih =>
    intro data hi hw
    have hf : wordIx W r f < data.length := hi f (List.mem_cons_self _ _)
    have hstep := updAt_of_lt (fun w => w ||| bitMask (bitIx W r f)) data (wordIx W r f) hf
    have hwords := updAt_words _ (or_bitMask_lt (bitIx W r f)) data _ _ hw hstep
    have hlen := updAt_length _ data _ _ hstep
    obtain ⟨d, hd, hdl, hdw⟩ := ih _
      (fun g hg => by rw [hlen]; exact hi g (List.mem_cons_of_mem _ hg)) hwords
    refine ⟨d, ?_, hdl.trans hlen, hdw⟩
    rw [setFieldLoop_cons, orField_eq]
    simp only [wordIx, bitIx] at hstep
    rw [hstep]
    exact hd

theorem unsetFieldLoop_ok (W r : Nat) :
    ∀ (l : List Nat) (data : List Nat), (∀ f ∈ l, wordIx W r f < data.length) →
      (∀ w ∈ data, w < uint32Mod) →
      ∃ d, unsetFieldLoop (r * W % uintMod / 32) (r * W % uintMod % 32) data l = some d ∧
        d.length = data.length ∧ ∀ w ∈ d, w < uint32Mod := by
  intro l
  induction l with
  | nil => intro data _ hw; exact ⟨data, rfl, rfl, hw⟩
  | cons f fs ih =>
    intro data hi hw
    have hf : wordIx W r f < data.length := hi f (List.mem_cons_self _ _)
    have hstep := updAt_of_lt (fun w => w &&& not32 (bitMask (bitIx W r f))) data
      (wordIx W r f) hf
    have hwords := updAt_words _ (and_not32_lt (bitMask (bitIx W r f))) data _ _ hw hstep
    have hlen := updAt_length _ data _ _ hstep
    obtain ⟨d, hd, hdl, hdw⟩ := ih _
      (fun g hg => by rw [hlen]; exact hi g (List.mem_cons_of_mem _ hg)) hwords
    refine ⟨d, ?_, hdl.trans hlen, hdw⟩
    rw [unsetFieldLoop_cons, clearField_eq]
    simp only [wordIx, bitIx] at hstep
    rw [hstep]
    exact hd

theorem setFieldLoop_eq_inPlace (dataIndex offset : Nat) :
    ∀ (l : List Nat) (data : List Nat),
      setFieldLoop dataIndex offset data l =
        if (setFieldLoopInPlace dataIndex offset data l).2 then
          some (setFieldLoopInPlace dataIndex offset data l).1
        else none := by
  intro l
  induction l with
  | nil => intro data; rfl
  | cons f fs ih =>
    intro data
    simp only [setFieldLoop, setFieldLoopInPlace]
    cases orField data dataIndex offset f with
    | none => rfl
    | some d => exact ih d

theorem unsetFieldLoop_eq_inPlace (dataIndex offset : Nat) :
    ∀ (l : List Nat) (data : List Nat),
      unsetFieldLoop dataIndex offset data l =
        if (unsetFieldLoopInPlace dataIndex offset data l).2 then
          some (unsetFieldLoopInPlace dataIndex offset data l).1
        else none := by
  intro l
  induction l with
  | nil => intro data; rfl
  | cons f fs ih =>
    intro data
    simp only [unsetFieldLoop, unsetFieldLoopInPlace]
    cases clearField data dataIndex offset f with
    | none => rfl
    | some d => exact ih d

/-- The result of `SetField` is the result of `SetFieldInPlace` with the array of a
panicking call dropped. -/
theorem setField_eq_inPlace (ff : OneDFlagField) (index f0 : Nat) (rest : List Nat) :
    ff.SetField index f0 rest =
      match ff.SetFieldInPlace index f0 rest with
      | (ff', some e) => some (ff', e)
      | (_, none) => none := by
  unfold OneDFlagField.SetField OneDFlagField.SetFieldInPlace
  split
  · rfl
  · rename_i dataIndex offset _
    cases orField ff.data dataIndex offset f0 with
    | none => rfl
    | some d =>
      simp only [setFieldLoop_eq_inPlace dataIndex offset rest d]
      cases h : setFieldLoopInPlace dataIndex offset d rest with
      | mk d' ok => cases ok <;> simp

/-- The result of `UnsetField` is the result of `UnsetFieldInPlace` with the array of a
panicking call dropped. -/
theorem unsetField_eq_inPlace (ff : OneDFlagField) (index f0 : Nat) (rest : List Nat) :
    ff.UnsetField index f0 rest =
      match ff.UnsetFieldInPlace index f0 rest with
      | (ff', some e) => some (ff', e)
      | (_, none) => none := by
  unfold OneDFlagField.UnsetField OneDFlagField.UnsetFieldInPlace
  split
  · rfl
  · rename_i dataIndex offset _
    cases clearField ff.data dataIndex offset f0 with
    | none => rfl
    | some d =>
      simp only [unsetFieldLoop_eq_inPlace dataIndex offset rest d]
      cases h : unsetFieldLoopInPlace dataIndex offset d rest with
      | mk d' ok => cases ok <;> simp

/-- C6, as stated, fails where the bit count wraps. `MakeOneDFlagField(3, N)` with
`N = 6148914691236517206` has `3 * N = 2^64 + 2` and one storage word; record 10 is valid
and starts at bit 30, so its field 0 lies in word 0 and its field 2 in the missing word 1.
`SetField(10, 0, 2)` sets field 0 (storage `[1073741824]`) and then panics on field 2,
while the calls in the other order start with `Set(10, 2)`, which panics with the storage
still `[0]`: no storage is returned, and the storage left depends on the order. -/
theorem wrapped_bit_count_setField_order :
    10 < 6148914691236517206 ∧ 3 * 6148914691236517206 = 2 ^ 64 + 2 ∧
    (∀ f ∈ [0, 2], f < 3) ∧ [2, 0].Perm [0, 2] ∧
    (MakeOneDFlagField 3 6148914691236517206).data = [0] ∧
    (MakeOneDFlagField 3 6148914691236517206).SetField 10 0 [2] = none ∧
    (MakeOneDFlagField 3 6148914691236517206).SetFieldInPlace 10 0 [2] =
      (⟨3, 6148914691236517206, [1073741824]⟩, none) ∧
    (MakeOneDFlagField 3 6148914691236517206).Set 10 2 = none ∧
    applySets (MakeOneDFlagField 3 6148914691236517206) 10 [2, 0] = none ∧
    (MakeOneDFlagField 3 6148914691236517206).SetFieldInPlace 10 2 [0] =
      (⟨3, 6148914691236517206, [0]⟩, none) := by
  decide

/-- C6 (amended): for every array made by `MakeOneDFlagField(W, N)` with `N * W < 2^64`,
in any state, every record index `r < N` and every non-empty list of field indices
`f0, rest...` below `W`: `SetField(r, f0, rest...)` returns without error, and calling
`Set(r, f)` once for each `f` of any permutation `l` of the list returns without panic
and leaves exactly the same array (same storage, width and record count). -/
theorem batch_set_equivalence (W N : Nat) (ff : OneDFlagField) (r f0 : Nat)
    (rest l : List Nat) (hfit : N * W < uintMod) (hm : Made W N ff) (hr : r < N)
    (hf : ∀ f ∈ f0 :: rest, f < W) (hp : l.Perm (f0 :: rest)) :
    ∃ ff', ff.SetField r f0 rest = some (ff', none) ∧ applySets ff r l = some ff' ∧
      ff.SetFieldInPlace r f0 rest = (ff', some none) := by
  obtain ⟨W0, N0, data⟩ := ff
  obtain ⟨hw, hl, hs, hwords⟩ := hm
  simp only at hw hl hs hwords
  subst hw hl
  have hi : ∀ f ∈ f0 :: rest, wordIx W0 r f < data.length :=
    fun f hmem => hs ▸ wordIx_lt W0 N0 r f hfit hr (hf f hmem)
  obtain ⟨d, hd, -, -⟩ := setFieldLoop_ok W0 r (f0 :: rest) data hi hwords
  have hset : (OneDFlagField.mk W0 N0 data).SetField r f0 rest = some (⟨W0, N0, d⟩, none) := by
    rw [setField_of_lt W0 N0 data r f0 rest hr, hd]
    rfl
  refine ⟨⟨W0, N0, d⟩, hset, ?_, ?_⟩
  · rw [applySets_of_lt W0 N0 r hr l data, setFieldLoop_perm _ _ hp data, hd]
    rfl
  · have h := setField_eq_inPlace ⟨W0, N0, data⟩ r f0 rest
    rw [hset] at h
    cases hin : (OneDFlagField.mk W0 N0 data).SetFieldInPlace r f0 rest with
    | mk ff1 e =>
      rw [hin] at h
      cases e with
      | none => simp at h
      | some e' =>
        simp only [Option.some.injEq, Prod.mk.injEq] at h
        rw [h.1, h.2]

/-- Witness for C6: `SetField(2, 4, 7, 2)` on a fresh `MakeOneDFlagField(9, 5)` against
`Set(2, 2); Set(2, 4); Set(2, 7)`. -/
theorem batch_set_equivalence_witness :
    ∃ ff', (MakeOneDFlagField 9 5).SetField 2 4 [7, 2] = some (ff', none) ∧
      applySets (MakeOneDFlagField 9 5) 2 [2, 4, 7] = some ff' ∧
      (MakeOneDFlagField 9 5).SetFieldInPlace 2 4 [7, 2] = (ff', some none) :=
  batch_set_equivalence 9 5 (MakeOneDFlagField 9 5) 2 4 [7, 2] [2, 4, 7] (by decide)
    ⟨rfl, rfl, rfl, by decide⟩ (by decide) (by decide) (by decide)

/-- C7, as stated, fails where the bit count wraps. On `MakeOneDFlagField(3, N)` with
`N = 6148914691236517206` (one storage word) after `Set(10, 0)` the storage is
`[1073741824]`. `UnsetField(10, 0, 2)` clears field 0 (storage `[0]`) and then panics on
field 2, which lies in the missing word 1, while the calls in the other order start with
`Unset(10, 2)`, which panics with the storage still `[1073741824]`: no storage is
returned, and the storage left depends on the order. -/
theorem wrapped_bit_count_unsetField_order :
    10 < 6148914691236517206 ∧ (∀ f ∈ [0, 2], f < 3) ∧ [2, 0].Perm [0, 2] ∧
    (MakeOneDFlagField 3 6148914691236517206).Set 10 0 =
      some (⟨3, 6148914691236517206, [1073741824]⟩, none) ∧
    (⟨3, 6148914691236517206, [1073741824]⟩ : OneDFlagField).UnsetField 10 0 [2] = none ∧
    (⟨3, 6148914691236517206, [1073741824]⟩ : OneDFlagField).UnsetFieldInPlace 10 0 [2] =
      (⟨3, 6148914691236517206, [0]⟩, none) ∧
    (⟨3, 6148914691236517206, [1073741824]⟩ : OneDFlagField).Unset 10 2 = none ∧
    applyUnsets ⟨3, 6148914691236517206, [1073741824]⟩ 10 [2, 0] = none ∧
    (⟨3, 6148914691236517206, [1073741824]⟩ : OneDFlagField).UnsetFieldInPlace 10 2 [0] =
      (⟨3, 6148914691236517206, [1073741824]⟩, none) := by
  decide

/-- C7 (amended): for every array made by `MakeOneDFlagField(W, N)` with `N * W < 2^64`,
in any state, every record index `r < N` and every non-empty list of field indices
`f0, rest...` below `W`: `UnsetField(r, f0, rest...)` returns without error, and calling
`Unset(r, f)` once for each `f` of any permutation `l` of the list returns without panic
and leaves exactly the same array. `UnsetField` clears the bits of record `r`: the start
word index it keeps in `index` is the one `Unset` uses. -/
theorem batch_unset_equivalence (W N : Nat) (ff : OneDFlagField) (r f0 : Nat)
    (rest l : List Nat) (hfit : N * W < uintMod) (hm : Made W N ff) (hr : r < N)
    (hf : ∀ f ∈ f0 :: rest, f < W) (hp : l.Perm (f0 :: rest)) :
    ∃ ff', ff.UnsetField r f0 rest = some (ff', none) ∧ applyUnsets ff r l = some ff' ∧
      ff.UnsetFieldInPlace r f0 rest = (ff', some none) := by
  obtain ⟨W0, N0, data⟩ := ff
  obtain ⟨hw, hl, hs, hwords⟩ := hm
  simp only at hw hl hs hwords
  subst hw hl
  have hi : ∀ f ∈ f0 :: rest, wordIx W0 r f < data.length :=
    fun f hmem => hs ▸ wordIx_lt W0 N0 r f hfit hr (hf f hmem)
  obtain ⟨d, hd, -, -⟩ := unsetFieldLoop_ok W0 r (f0 :: rest) data hi hwords
  have hunset :
      (OneDFlagField.mk W0 N0 data).UnsetField r f0 rest = some (⟨W0, N0, d⟩, none) := by
    rw [unsetField_of_lt W0 N0 data r f0 rest hr, hd]
    rfl
  refine ⟨⟨W0, N0, d⟩, hunset, ?_, ?_⟩
  · rw [applyUnsets_of_lt W0 N0 r hr l data, unsetFieldLoop_perm _ _ hp data, hd]
    rfl
  · have h := unsetField_eq_inPlace ⟨W0, N0, data⟩ r f0 rest
    rw [hunset] at h
    cases hin : (OneDFlagField.mk W0 N0 data).UnsetFieldInPlace r f0 rest with
    | mk ff1 e =>
      rw [hin] at h
      cases e with
      | none => simp at h
      | some e' =>
        simp only [Option.some.injEq, Prod.mk.injEq] at h
        rw [h.1, h.2]

/-- Witness for C7: `UnsetField(4, 5, 0)` against `Unset(4, 0); Unset(4, 5)` on
`MakeOneDFlagField(9, 5)` with fields 0, 5, 8 of record 4 set (storage `[0, 4624]`). -/
theorem batch_unset_equivalence_witness :
    ∃ ff', (⟨9, 5, [0, 4624]⟩ : OneDFlagField).UnsetField 4 5 [0] = some (ff', none) ∧
      applyUnsets ⟨9, 5, [0, 4624]⟩ 4 [0, 5] = some ff' ∧
      (⟨9, 5, [0, 4624]⟩ : OneDFlagField).UnsetFieldInPlace 4 5 [0] = (ff', some none) :=
  batch_unset_equivalence 9 5 ⟨9, 5, [0, 4624]⟩ 4 5 [0] [0, 5] (by decide)
    ⟨rfl, rfl, rfl, by decide⟩ (by decide) (by decide) (by decide)

/-! ## Claims C8 and C9: a record index at or beyond the record count -/

/-- C8: for every array with record count `N = ff.length`, every record index `i ≥ N` and
every choice of field indices, each of `IsSet`, `Set`, `Unset`, `AllSet`, `AnySet`,
`SetField` and `UnsetField` returns the error `ErrOutOfBounds` with `boundType = "index"`,
`bound = N` and `input = i`; the three queries return `false` with it. -/
theorem out_of_bounds_is_reported (ff : OneDFlagField) (i f0 : Nat) (rest : List Nat)
    (hi : ff.length ≤ i) :
    ff.IsSet i f0 = some (false, some ⟨"index", ff.length, i⟩) ∧
    ff.AllSet i f0 rest = some (false, some ⟨"index", ff.length, i⟩) ∧
    ff.AnySet i f0 rest = some (false, some ⟨"index", ff.length, i⟩) ∧
    (ff.Set i f0).map Prod.snd = some (some ⟨"index", ff.length, i⟩) ∧
    (ff.Unset i f0).map Prod.snd = some (some ⟨"index", ff.length, i⟩) ∧
    (ff.SetField i f0 rest).map Prod.snd = some (some ⟨"index", ff.length, i⟩) ∧
    (ff.UnsetField i f0 rest).map Prod.snd = some (some ⟨"index", ff.length, i⟩) := by
  have h := dataIndexAndOffsetFor_of_ge ff i hi
  simp only [OneDFlagField.IsSet, OneDFlagField.AllSet, OneDFlagField.AnySet, OneDFlagField.Set,
    OneDFlagField.Unset, OneDFlagField.SetField, OneDFlagField.UnsetField, h, Option.map_some',
    and_self]

/-- Witness for C8: record index 5 on `MakeOneDFlagField(9, 5)`. -/
theorem out_of_bounds_is_reported_witness :
    (MakeOneDFlagField 9 5).IsSet 5 0 = some (false, some ⟨"index", 5, 5⟩) ∧
    (MakeOneDFlagField 9 5).AllSet 5 0 [3] = some (false, some ⟨"index", 5, 5⟩) ∧
    (MakeOneDFlagField 9 5).AnySet 5 0 [3] = some (false, some ⟨"index", 5, 5⟩) ∧
    ((MakeOneDFlagField 9 5).Set 5 0).map Prod.snd = some (some ⟨"index", 5, 5⟩) ∧
    ((MakeOneDFlagField 9 5).Unset 5 0).map Prod.snd = some (some ⟨"index", 5, 5⟩) ∧
    ((MakeOneDFlagField 9 5).SetField 5 0 [3]).map Prod.snd = some (some ⟨"index", 5, 5⟩) ∧
    ((MakeOneDFlagField 9 5).UnsetField 5 0 [3]).map Prod.snd = some (some ⟨"index", 5, 5⟩) :=
  out_of_bounds_is_reported (MakeOneDFlagField 9 5) 5 0 [3] (by decide)

/-- C9: for every array in any state, every record index `i ≥ record_count` and every
choice of field indices, the array after `Set`, `Unset`, `SetField` or `UnsetField` is the
array before the call: same storage, same field width, same record count. (The queries
`IsSet`, `AllSet` and `AnySet` contain no assignment to the array and are functions of it
in the embedding.) -/
theorem out_of_bounds_leaves_array_unchanged (ff : OneDFlagField) (i f0 : Nat)
    (rest : List Nat) (hi : ff.length ≤ i) :
    (ff.Set i f0).map Prod.fst = some ff ∧
    (ff.Unset i f0).map Prod.fst = some ff ∧
    (ff.SetField i f0 rest).map Prod.fst = some ff ∧
    (ff.UnsetField i f0 rest).map Prod.fst = some ff := by
  have h := dataIndexAndOffsetFor_of_ge ff i hi
  simp only [OneDFlagField.Set, OneDFlagField.Unset, OneDFlagField.SetField,
    OneDFlagField.UnsetField, h, Option.map_some', and_self]

/-- Witness for C9: record index 7 on an array of
5 records with some flags set. -/
theorem out_of_bounds_leaves_array_unchanged_witness :
    ((⟨9, 5, [38797312, 4624]⟩ : OneDFlagField).Set 7 0).map Prod.fst =
      some ⟨9, 5, [38797312, 4624]⟩ ∧
    ((⟨9, 5, [38797312, 4624]⟩ : OneDFlagField).Unset 7 0).map Prod.fst =
      some ⟨9, 5, [38797312, 4624]⟩ ∧
    ((⟨9, 5, [38797312, 4624]⟩ : OneDFlagField).SetField 7 0 [4, 8]).map Prod.fst =
      some ⟨9, 5, [38797312, 4624]⟩ ∧
    ((⟨9, 5, [38797312, 4624]⟩ : OneDFlagField).UnsetField 7 0 [4, 8]).map Prod.fst =
      some ⟨9, 5, [38797312, 4624]⟩ :=
  out_of_bounds_leaves_array_unchanged ⟨9, 5, [38797312, 4624]⟩ 7 0 [4, 8] (by decide)

/-! ## Claim C10: no failure on valid input -/

/-- C10, as stated, fails where the bit count wraps: `MakeOneDFlagField(8, 2^61)` allocates
no word (`2^61 * 8` is `0` modulo `2^64`) although `ceil(N*W/32) = 2^59`, and on the valid
pair `(0, 0)` every operation indexes the empty slice and panics. -/
theorem operations_panic_when_bit_count_wraps :
    0 < 2 ^ 61 ∧ 0 < 8 ∧ (MakeOneDFlagField 8 (2 ^ 61)).data.length = 0 ∧
    (MakeOneDFlagField 8 (2 ^ 61)).slot 0 0 = (0, 0) ∧
    (MakeOneDFlagField 8 (2 ^ 61)).IsSet 0 0 = none ∧
    (MakeOneDFlagField 8 (2 ^ 61)).AllSet 0 0 [] = none ∧
    (MakeOneDFlagField 8 (2 ^ 61)).AnySet 0 0 [] = none ∧
    (MakeOneDFlagField 8 (2 ^ 61)).SetField 0 0 [] = none ∧
    (MakeOneDFlagField 8 (2 ^ 61)).UnsetField 0 0 [] = none := by
  decide

/-- C10 (amended): for every array made by `MakeOneDFlagField(W, N)` with `N * W < 2^64`,
in any state, every record index `r < N` and field indices `f0, rest...` all below `W`:
the storage length is `ceil(N*W/32)`, the word index of every field of the call is
strictly below it, each of `IsSet`, `Set`, `Unset`, `AllSet`, `AnySet`, `SetField` and
`UnsetField` returns normally with no error, and the array left by a write is again an
array made by `MakeOneDFlagField(W, N)`. -/
theorem no_failure_on_valid_input (W N : Nat) (ff : OneDFlagField) (r f0 : Nat)
    (rest : List Nat) (hfit : N * W < uintMod) (hm : Made W N ff) (hr : r < N)
    (hf : ∀ f ∈ f0 :: rest, f < W) :
    ff.data.length = (N * W + 31) / 32 ∧
    (∀ f ∈ f0 :: rest, (ff.slot r f).1 < ff.data.length) ∧
    (∃ b, ff.IsSet r f0 = some (b, none)) ∧
    (∃ b, ff.AllSet r f0 rest = some (b, none)) ∧
    (∃ b, ff.AnySet r f0 rest = some (b, none)) ∧
    (∃ ff', ff.Set r f0 = some (ff', none) ∧ Made W N ff') ∧
    (∃ ff', ff.Unset r f0 = some (ff', none) ∧ Made W N ff') ∧
    (∃ ff', ff.SetField r f0 rest = some (ff', none) ∧ Made W N ff') ∧
    (∃ ff', ff.UnsetField r f0 rest = some (ff', none) ∧ Made W N ff') := by
  obtain ⟨W0, N0, data⟩ := ff
  obtain ⟨hw, hl, hs, hwords⟩ := hm
  simp only at hw hl hs hwords
  subst hw hl
  have hi : ∀ f ∈ f0 :: rest, wordIx W0 r f < data.length :=
    fun f hmem => hs ▸ wordIx_lt W0 N0 r f hfit hr (hf f hmem)
  have hi0 := hi f0 (List.mem_cons_self _ _)
  refine ⟨hs.trans (makeOneDFlagField_length W0 N0 hfit), ?_, ?_, ?_, ?_, ?_, ?_, ?_, ?_⟩
  · intro f hmem
    rw [slot_of_lt ⟨W0, N0, data⟩ r f hr]
    exact hi f hmem
  · exact ⟨_, isSet_eq_bitAt W0 N0 data r f0 hr hi0⟩
  · exact ⟨_, allSet_eq_all W0 N0 data r f0 rest hr hi⟩
  · exact ⟨_, anySet_eq_any W0 N0 data r f0 rest hr hi⟩
  · have hstep := updAt_of_lt (fun w => w ||| bitMask (bitIx W0 r f0)) data _ hi0
    refine ⟨⟨W0, N0, _⟩, ?_, made_of_updAt W0 N0 ⟨W0, N0, data⟩ _
      (or_bitMask_lt (bitIx W0 r f0)) _ _ ⟨rfl, rfl, hs, hwords⟩ hstep⟩
    rw [set_of_lt _ r f0 hr, hstep]
    rfl
  · have hstep := updAt_of_lt (fun w => w &&& not32 (bitMask (bitIx W0 r f0))) data _ hi0
    refine ⟨⟨W0, N0, _⟩, ?_, made_of_updAt W0 N0 ⟨W0, N0, data⟩ _
      (and_not32_lt (bitMask (bitIx W0 r f0))) _ _ ⟨rfl, rfl, hs, hwords⟩ hstep⟩
    rw [unset_of_lt _ r f0 hr, hstep]
    rfl
  · obtain ⟨d, hd, hdl, hdw⟩ := setFieldLoop_ok W0 r (f0 :: rest) data hi hwords
    refine ⟨⟨W0, N0, d⟩, ?_, ⟨rfl, rfl, hdl.trans hs, hdw⟩⟩
    rw [setField_of_lt W0 N0 data r f0 rest hr, hd]
    rfl
  · obtain ⟨d, hd, hdl, hdw⟩ := unsetFieldLoop_ok W0 r (f0 :: rest) data hi hwords
    refine ⟨⟨W0, N0, d⟩, ?_, ⟨rfl, rfl, hdl.trans hs, hdw⟩⟩
    rw [unsetField_of_lt W0 N0 data r f0 rest hr, hd]
    rfl

/-- Witness for C10: the last record of `MakeOneDFlagField(9, 5)`,
whose fields 0, 5 and 8 lie in the second storage word. -/
theorem no_failure_on_valid_input_witness :
    (MakeOneDFlagField 9 5).data.length = (5 * 9 + 31) / 32 ∧
    (∀ f ∈ [0, 5, 8], ((MakeOneDFlagField 9 5).slot 4 f).1 < (MakeOneDFlagField 9 5).data.length) ∧
    (∃ b, (MakeOneDFlagField 9 5).IsSet 4 0 = some (b, none)) ∧
    (∃ b, (MakeOneDFlagField 9 5).AllSet 4 0 [5, 8] = some (b, none)) ∧
    (∃ b, (MakeOneDFlagField 9 5).AnySet 4 0 [5, 8] = some (b, none)) ∧
    (∃ ff', (MakeOneDFlagField 9 5).Set 4 0 = some (ff', none) ∧ Made 9 5 ff') ∧
    (∃ ff', (MakeOneDFlagField 9 5).Unset 4 0 = some (ff', none) ∧ Made 9 5 ff') ∧
    (∃ ff', (MakeOneDFlagField 9 5).SetField 4 0 [5, 8] = some (ff', none) ∧ Made 9 5 ff') ∧
    (∃ ff', (MakeOneDFlagField 9 5).UnsetField 4 0 [5, 8] = some (ff', none) ∧ Made 9 5 ff') :=
  no_failure_on_valid_input 9 5 (MakeOneDFlagField 9 5) 4 0 [5, 8] (by decide)
    ⟨rfl, rfl, rfl, by decide⟩ (by decide) (by decide)

/-! ## Claims C11 and C12: the constructor -/

theorem bitAt_replicate_zero (k W r f : Nat) : bitAt (List.replicate k 0) W r f = false := by
  have hb := bitMask_of_lt _ (bitIx_lt W r f)
  have hne : (0 : Nat) ≠ 2 ^ bitIx W r f := (Nat.pos_pow_of_pos _ (by decide)).ne
  unfold bitAt
  rw [List.getElem?_replicate]
  split
  · rfl
  · rename_i w hw
    split at hw
    · cases hw
      simp [hb, hne]
    · cases hw

/-- C11, as stated, fails where the bit count wraps: for `W = 16 ≥ 1` and `N = 2^60` the
constructor allocates no word (`2^60 * 16` is `0` modulo `2^64`), and on the fresh array
`AnySet(0, 0, 1)` panics for the valid record 0 instead of returning `(false, nil)`. -/
theorem wrapped_bit_count_fresh_anySet_panics :
    1 ≤ 16 ∧ 0 < 2 ^ 60 ∧ (∀ f ∈ [0, 1], f < 16) ∧
    (MakeOneDFlagField 16 (2 ^ 60)).AnySet 0 0 [1] = none := by
  decide

/-- C11 (amended): for every field width `W` and record count `N` with `N * W < 2^64`,
immediately after `MakeOneDFlagField(W, N)`, `AnySet(i, f0, rest...)` returns
`(false, nil)` for every record index `i < N` and every non-empty list of field indices
below `W`. -/
theorem fresh_array_anySet_false (W N i f0 : Nat) (rest : List Nat)
    (hfit : N * W < uintMod) (hi : i < N) (hf : ∀ f ∈ f0 :: rest, f < W) :
    (MakeOneDFlagField W N).AnySet i f0 rest = some (false, none) := by
  have hlen : ∀ f ∈ f0 :: rest, wordIx W i f < (MakeOneDFlagField W N).data.length :=
    fun f hmem => wordIx_lt W N i f hfit hi (hf f hmem)
  have h := anySet_eq_any W N (MakeOneDFlagField W N).data i f0 rest hi hlen
  have hany : (f0 :: rest).any (bitAt (MakeOneDFlagField W N).data W i) = false := by
    rw [List.any_eq_false]
    intro f _
    simp only [MakeOneDFlagField, bitAt_replicate_zero]
    exact Bool.false_ne_true
  rw [hany] at h
  exact h

/-- Witness for C11: every record of a fresh `MakeOneDFlagField(9, 5)` queried over all
nine fields, here record 3. -/
theorem fresh_array_anySet_false_witness :
    (MakeOneDFlagField 9 5).AnySet 3 0 [1, 2, 3, 4, 5, 6, 7, 8] = some (false, none) :=
  fresh_array_anySet_false 9 5 3 0 [1, 2, 3, 4, 5, 6, 7, 8] (by decide) (by decide) (by decide)

/-- C12, as stated, fails where the bit count wraps: for `W = 32` and `N = 2^59` the
product `N * W = 2^64` is `0` in `uint`, so the constructor allocates `0` words while
`ceil(N*W/32) = 2^59`, and `N*W ≤ 32 * (number of words)` is false. -/
theorem wrapped_bit_count_allocates_nothing :
    (MakeOneDFlagField 32 (2 ^ 59)).data.length = 0 ∧
    (2 ^ 59 * 32 + 31) / 32 = 2 ^ 59 ∧
    ¬ (2 ^ 59 * 32 ≤ 32 * (MakeOneDFlagField 32 (2 ^ 59)).data.length) := by
  decide

/-- C12 (amended): for every field width `W` and record count `N` with `N * W < 2^64`
(including `W = 0` or `N = 0`), `MakeOneDFlagField(W, N)` keeps `W` and `N`, allocates
exactly `ceil(N*W / 32)` storage words, every one of them zero; in particular
`N*W ≤ 32 * (number of words) < N*W + 32`. -/
theorem constructor_storage_size (W N : Nat) (hfit : N * W < uintMod) :
    (MakeOneDFlagField W N).fieldWidth = W ∧ (MakeOneDFlagField W N).length = N ∧
    (MakeOneDFlagField W N).data.length = (N * W + 31) / 32 ∧
    (∀ w ∈ (MakeOneDFlagField W N).data, w = 0) ∧
    N * W ≤ 32 * (MakeOneDFlagField W N).data.length ∧
    32 * (MakeOneDFlagField W N).data.length < N * W + 32 := by
  have hlen := makeOneDFlagField_length W N hfit
  refine ⟨rfl, rfl, hlen, ?_, ?_, ?_⟩
  · intro w hw
    simp only [MakeOneDFlagField] at hw
    exact (List.mem_replicate.mp hw).2
  · rw [hlen]; omega
  · rw [hlen]; omega

/-- Witness for C12: `MakeOneDFlagField(9, 5)` needs 45 bits, two words. -/
theorem constructor_storage_size_witness :
    (MakeOneDFlagField 9 5).fieldWidth = 9 ∧ (MakeOneDFlagField 9 5).length = 5 ∧
    (MakeOneDFlagField 9 5).data.length = (5 * 9 + 31) / 32 ∧
    (∀ w ∈ (MakeOneDFlagField 9 5).data, w = 0) ∧
    5 * 9 ≤ 32 * (MakeOneDFlagField 9 5).data.length ∧
    32 * (MakeOneDFlagField 9 5).data.length < 5 * 9 + 32 :=
  constructor_storage_size 9 5 (by decide)

/-! ## Claim C13: Len -/

theorem setField_of_ge (W N : Nat) (data : List Nat) (r f0 : Nat) (rest : List Nat)
    (hr : N ≤ r) :
    (OneDFlagField.mk W N data).SetField r f0 rest =
      some (⟨W, N, data⟩, some ⟨"index", N, r⟩) := by
  simp only [OneDFlagField.SetField, dataIndexAndOffsetFor_of_ge ⟨W, N, data⟩ r hr]

theorem unsetField_of_ge (W N : Nat) (data : List Nat) (r f0 : Nat) (rest : List Nat)
    (hr : N ≤ r) :
    (OneDFlagField.mk W N data).UnsetField r f0 rest =
      some (⟨W, N, data⟩, some ⟨"index", N, r⟩) := by
  simp only [OneDFlagField.UnsetField, dataIndexAndOffsetFor_of_ge ⟨W, N, data⟩ r hr]

theorem set_of_ge (W N : Nat) (data : List Nat) (r f : Nat) (hr : N ≤ r) :
    (OneDFlagField.mk W N data).Set r f = some (⟨W, N, data⟩, some ⟨"index", N, r⟩) := by
  simp only [OneDFlagField.Set, dataIndexAndOffsetFor_of_ge ⟨W, N, data⟩ r hr]

theorem unset_of_ge (W N : Nat) (data : List Nat) (r f : Nat) (hr : N ≤ r) :
    (OneDFlagField.mk W N data).Unset r f = some (⟨W, N, data⟩, some ⟨"index", N, r⟩) := by
  simp only [OneDFlagField.Unset, dataIndexAndOffsetFor_of_ge ⟨W, N, data⟩ r hr]

theorem apply_shape (ff ff' : OneDFlagField) (c : Call) (e : Option ErrOutOfBounds)
    (h : c.apply ff = some (ff', e)) :
    ff'.fieldWidth = ff.fieldWidth ∧ ff'.length = ff.length := by
  obtain ⟨W, N, data⟩ := ff
  cases c with
  | set r f =>
    simp only [Call.apply] at h
    by_cases hr : r < N
    · rw [set_of_lt _ r f hr] at h
      cases hu : updAt (fun w => w ||| bitMask (bitIx W r f)) data (wordIx W r f) with
      | none => simp [hu] at h
      | some d => simp [hu] at h; obtain ⟨h1, -⟩ := h; subst h1; exact ⟨rfl, rfl⟩
    · rw [set_of_ge W N data r f (Nat.le_of_not_lt hr)] at h
      simp at h; obtain ⟨h1, -⟩ := h; subst h1; exact ⟨rfl, rfl⟩
  | unset r f =>
    simp only [Call.apply] at h
    by_cases hr : r < N
    · rw [unset_of_lt _ r f hr] at h
      cases hu : updAt (fun w => w &&& not32 (bitMask (bitIx W r f))) data (wordIx W r f) with
      | none => simp [hu] at h
      | some d => simp [hu] at h; obtain ⟨h1, -⟩ := h; subst h1; exact ⟨rfl, rfl⟩
    · rw [unset_of_ge W N data r f (Nat.le_of_not_lt hr)] at h
      simp at h; obtain ⟨h1, -⟩ := h; subst h1; exact ⟨rfl, rfl⟩
  | setField r f0 rest =>
    simp only [Call.apply] at h
    by_cases hr : r < N
    · rw [setField_of_lt W N data r f0 rest hr] at h
      cases hu : setFieldLoop (r * W % uintMod / 32) (r * W % uintMod % 32) data (f0 :: rest) with
      | none => simp [hu] at h
      | some d => simp [hu] at h; obtain ⟨h1, -⟩ := h; subst h1; exact ⟨rfl, rfl⟩
    · rw [setField_of_ge W N data r f0 rest (Nat.le_of_not_lt hr)] at h
      simp at h; obtain ⟨h1, -⟩ := h; subst h1; exact ⟨rfl, rfl⟩
  | unsetField r f0 rest =>
    simp only [Call.apply] at h
    by_cases hr : r < N
    · rw [unsetField_of_lt W N data r f0 rest hr] at h
      cases hu : unsetFieldLoop (r * W % uintMod / 32) (r * W % uintMod % 32) data
        (f0 :: rest) with
      | none => simp [hu] at h
      | some d => simp [hu] at h; obtain ⟨h1, -⟩ := h; subst h1; exact ⟨rfl, rfl⟩
    · rw [unsetField_of_ge W N data r f0 rest (Nat.le_of_not_lt hr)] at h
      simp at h; obtain ⟨h1, -⟩ := h; subst h1; exact ⟨rfl, rfl⟩

theorem runCalls_shape (cs : List Call) :
    ∀ (ff ff' : OneDFlagField), runCalls ff cs = some ff' →
      ff'.fieldWidth = ff.fieldWidth ∧ ff'.length = ff.length := by
  induction cs with
  | nil =>
    intro ff ff' h
    simp only [runCalls, Option.some.injEq] at h
    subst h
    exact ⟨rfl, rfl⟩
  | cons c cs ih =>
    intro ff ff' h
    simp only [runCalls] at h
    cases hc : c.apply ff with
    | none => simp [hc] at h
    | some p =>
      obtain ⟨ff1, e⟩ := p
      simp only [hc] at h
      obtain ⟨h1, h2⟩ := ih ff1 ff' h
      obtain ⟨h3, h4⟩ := apply_shape ff ff1 c e hc
      exact ⟨h1.trans h3, h2.trans h4⟩

/-- C13: for every `W` and `N`, `MakeOneDFlagField(W, N).Len()` is `N`, and after any
sequence of `Set`, `Unset`, `SetField` and `UnsetField` calls, each returning with or
without an error, `Len()` is still `N` (and the field width still `W`). -/
theorem len_is_fixed_record_count (W N : Nat) (cs : List Call) (ff' : OneDFlagField)
    (h : runCalls (MakeOneDFlagField W N) cs = some ff') :
    (MakeOneDFlagField W N).Len = N ∧ ff'.Len = N ∧ ff'.fieldWidth = W := by
  obtain ⟨h1, h2⟩ := runCalls_shape cs _ _ h
  exact ⟨rfl, h2, h1⟩

/-- Witness for C13: on `MakeOneDFlagField(9, 5)` the calls `Set(2, 4)`, `Unset(7, 0)`
(failing), `SetField(4, 0, 5, 8)`, `UnsetField(9, 1)` (failing). -/
theorem len_is_fixed_record_count_witness :
    runCalls (MakeOneDFlagField 9 5)
      [Call.set 2 4, Call.unset 7 0, Call.setField 4 0 [5, 8], Call.unsetField 9 1 []] =
      some ⟨9, 5, [4194304, 4624]⟩ ∧
    (MakeOneDFlagField 9 5).Len = 5 ∧
    (⟨9, 5, [4194304, 4624]⟩ : OneDFlagField).Len = 5 ∧
    (⟨9, 5, [4194304, 4624]⟩ : OneDFlagField).fieldWidth = 9 :=
  ⟨by decide, len_is_fixed_record_count 9 5
    [Call.set 2 4, Call.unset 7 0, Call.setField 4 0 [5, 8], Call.unsetField 9 1 []]
    ⟨9, 5, [4194304, 4624]⟩ (by decide)⟩

/-! ## Claim C14: the scenario of the test -/

/-- C14: on `MakeOneDFlagField(9, 5)` the calls `SetField(2, 4, 7, 2)`,
`SetField(0, 0, 8)`, `SetField(4, 0, 5, 8)` and `UnsetField(4, 5)` all return without
error; afterwards `AnySet` over the nine fields `0..8` is false for record 1 and for
record 3, `IsSet(0, 0)` and `AnySet(0, 0)` are true, `AllSet(4, 0, 5, 8)` is false and
`AllSet(2, 4, 7, 2)` is true. -/
theorem test_scenario :
    (MakeOneDFlagField 9 5).SetField 2 4 [7, 2] = some (⟨9, 5, [38797312, 0]⟩, none) ∧
    (⟨9, 5, [38797312, 0]⟩ : OneDFlagField).SetField 0 0 [8] =
      some (⟨9, 5, [38797569, 0]⟩, none) ∧
    (⟨9, 5, [38797569, 0]⟩ : OneDFlagField).SetField 4 0 [5, 8] =
      some (⟨9, 5, [38797569, 4624]⟩, none) ∧
    (⟨9, 5, [38797569, 4624]⟩ : OneDFlagField).UnsetField 4 5 [] =
      some (⟨9, 5, [38797569, 4112]⟩, none) ∧
    (⟨9, 5, [38797569, 4112]⟩ : OneDFlagField).AnySet 1 0 [1, 2, 3, 4, 5, 6, 7, 8] =
      some (false, none) ∧
    (⟨9, 5, [38797569, 4112]⟩ : OneDFlagField).AnySet 3 0 [1, 2, 3, 4, 5, 6, 7, 8] =
      some (false, none) ∧
    (⟨9, 5, [38797569, 4112]⟩ : OneDFlagField).IsSet 0 0 = some (true, none) ∧
    (⟨9, 5, [38797569, 4112]⟩ : OneDFlagField).AnySet 0 0 [] = some (true, none) ∧
    (⟨9, 5, [38797569, 4112]⟩ : OneDFlagField).AllSet 4 0 [5, 8] = some (false, none) ∧
    (⟨9, 5, [38797569, 4112]⟩ : OneDFlagField).AllSet 2 4 [7, 2] = some (true, none) := by
  decide

/-! ## Claim C15: the per-field offset stage -/

/-- C15: evaluation at the failing input. On `MakeOneDFlagField(255, 2)` record 1 starts
at word 7 with start bit offset `s = 31`; for the field index `f = 225` the ordinary sum
is `s + f = 256`, so the claim gives `bit_in_word = 256 mod 32 = 0` and
`word_delta = 256 / 32 = 8`, while `dataFieldOffsets(31, 225)` returns bit `0` and word
delta `0`. -/
theorem dataFieldOffsets_wraps_at_256 :
    (MakeOneDFlagField 255 2).dataIndexAndOffsetFor 1 = (7, 31, none) ∧
    (31 + 225) % 32 = 0 ∧ (31 + 225) / 32 = 8 ∧
    dataFieldOffsets 31 225 = (0, 0) := by
  decide

/-! ## Claim C16: the block-start stage -/

/-- C16, as stated, fails where `i * W` wraps: on the array `MakeOneDFlagField(2, 2^63 + 1)`
(one storage word) the record index `i = 2^63` is below the record count, the claim gives
the start word `(i*W)/32 = 2^59`, and `dataIndexAndOffsetFor(2^63)` returns start word `0`. -/
theorem block_start_wraps :
    2 ^ 63 < 2 ^ 63 + 1 ∧ (2 ^ 63 * 2) / 32 = 2 ^ 59 ∧
    (MakeOneDFlagField 2 (2 ^ 63 + 1)).data = [0] ∧
    (MakeOneDFlagField 2 (2 ^ 63 + 1)).dataIndexAndOffsetFor (2 ^ 63) = (0, 0, none) := by
  decide

/-- C16 (amended): for every array with field width `W` and record count `N` and every
record index `i`: `dataIndexAndOffsetFor(i)` returns an error if and only if `i ≥ N`, the
error being `ErrOutOfBounds{"index", N, i}`; and for `i < N` with `i * W < 2^64` (so
whenever `N * W < 2^64`) it returns no error, start word index `(i*W) / 32` and start bit
offset `(i*W) mod 32`, which is below 32. -/
theorem block_start_stage (ff : OneDFlagField) (i : Nat) :
    ((ff.dataIndexAndOffsetFor i).2.2 ≠ none ↔ ff.length ≤ i) ∧
    (ff.length ≤ i → ff.dataIndexAndOffsetFor i = (0, 0, some ⟨"index", ff.length, i⟩)) ∧
    (i < ff.length → i * ff.fieldWidth < uintMod →
      ff.dataIndexAndOffsetFor i = (i * ff.fieldWidth / 32, i * ff.fieldWidth % 32, none) ∧
      i * ff.fieldWidth % 32 < 32) := by
  refine ⟨?_, dataIndexAndOffsetFor_of_ge ff i, ?_⟩
  · by_cases h : i < ff.length
    · rw [dataIndexAndOffsetFor_of_lt ff i h]
      simp [h]
    · have h' : ff.length ≤ i := Nat.le_of_not_lt h
      rw [dataIndexAndOffsetFor_of_ge ff i h']
      simp [h']
  · intro h hfit
    rw [dataIndexAndOffsetFor_of_lt ff i h, Nat.mod_eq_of_lt hfit]
    exact ⟨rfl, Nat.mod_lt _ (by decide)⟩

/-- Witness for C16: record 4 of `MakeOneDFlagField(9, 5)` starts at bit 36, word 1,
offset 4; record index 5 is reported. -/
theorem block_start_stage_witness :
    (MakeOneDFlagField 9 5).dataIndexAndOffsetFor 5 = (0, 0, some ⟨"index", 5, 5⟩) ∧
    (MakeOneDFlagField 9 5).dataIndexAndOffsetFor 4 = (4 * 9 / 32, 4 * 9 % 32, none) ∧
    4 * 9 % 32 < 32 :=
  ⟨(block_start_stage (MakeOneDFlagField 9 5) 5).2.1 (by decide),
    (block_start_stage (MakeOneDFlagField 9 5) 4).2.2 (by decide) (by decide)⟩

/-! ## Claim C17: a field index at or beyond the field width -/

/-- C17: there are an array, a valid record index `r`, a field index `f ≥ field_width` and
a valid pair `(r', f')` of another record such that `Set(r, f)` returns no error and
changes the answer of `IsSet(r', f')` from false to true; on `MakeOneDFlagField(9, 5)`,
`Set(0, 9)` returns nil and makes `IsSet(1, 0)` true. -/
theorem unchecked_field_index_is_silent :
    (∃ (W N r f r' f' : Nat) (ff' : OneDFlagField),
      r < N ∧ W ≤ f ∧ f < 256 ∧ r' < N ∧ f' < W ∧ r' ≠ r ∧
      (MakeOneDFlagField W N).IsSet r' f' = some (false, none) ∧
      (MakeOneDFlagField W N).Set r f = some (ff', none) ∧
      ff'.IsSet r' f' = some (true, none)) ∧
    (MakeOneDFlagField 9 5).IsSet 1 0 = some (false, none) ∧
    (MakeOneDFlagField 9 5).Set 0 9 = some (⟨9, 5, [512, 0]⟩, none) ∧
    (⟨9, 5, [512, 0]⟩ : OneDFlagField).IsSet 1 0 = some (true, none) :=
  ⟨⟨9, 5, 0, 9, 1, 0, ⟨9, 5, [512, 0]⟩, by decide⟩, by decide⟩

/-! ## Claim C19: a write changes one bit of one word -/

theorem updAt_some (g : Nat → Nat) (data d : List Nat) (i : Nat) (h : updAt g data i = some d) :
    ∃ w, data[i]? = some w ∧ d = data.set i (g w) := by
  unfold updAt at h
  split at h
  · cases h
  · rename_i w hw
    cases h
    exact ⟨w, hw, rfl⟩

theorem set_some_nil (W N : Nat) (data : List Nat) (r f : Nat) (ff' : OneDFlagField)
    (h : (OneDFlagField.mk W N data).Set r f = some (ff', none)) :
    r < N ∧ ∃ w, data[wordIx W r f]? = some w ∧
      ff' = ⟨W, N, data.set (wordIx W r f) (w ||| bitMask (bitIx W r f))⟩ := by
  by_cases hr : r < N
  · refine ⟨hr, ?_⟩
    rw [set_of_lt _ r f hr] at h
    cases hu : updAt (fun w => w ||| bitMask (bitIx W r f)) data (wordIx W r f) with
    | none => simp [hu] at h
    | some d =>
      obtain ⟨w, hw, hd⟩ := updAt_some _ _ _ _ hu
      simp only [hu, Option.map_some', Option.some.injEq, Prod.mk.injEq, and_true] at h
      exact ⟨w, hw, by rw [← h, hd]⟩
  · rw [set_of_ge W N data r f (Nat.le_of_not_lt hr)] at h
    simp at h

theorem unset_some_nil (W N : Nat) (data : List Nat) (r f : Nat) (ff' : OneDFlagField)
    (h : (OneDFlagField.mk W N data).Unset r f = some (ff', none)) :
    r < N ∧ ∃ w, data[wordIx W r f]? = some w ∧
      ff' = ⟨W, N, data.set (wordIx W r f) (w &&& not32 (bitMask (bitIx W r f)))⟩ := by
  by_cases hr : r < N
  · refine ⟨hr, ?_⟩
    rw [unset_of_lt _ r f hr] at h
    cases hu : updAt (fun w => w &&& not32 (bitMask (bitIx W r f))) data (wordIx W r f) with
    | none => simp [hu] at h
    | some d =>
      obtain ⟨w, hw, hd⟩ := updAt_some _ _ _ _ hu
      simp only [hu, Option.map_some', Option.some.injEq, Prod.mk.injEq, and_true] at h
      exact ⟨w, hw, by rw [← h, hd]⟩
  · rw [unset_of_ge W N data r f (Nat.le_of_not_lt hr)] at h
    simp at h

/-- C19: for every array in any state, whenever `Set(r, f)` returns without error the
field width and record count are unchanged, the storage keeps its length, and there are a
word index `i` and a bit `b < 32` such that word `i` becomes `old OR (1 << b)` and every
other word is unchanged; whenever `Unset(r, f)` returns without error the same holds with
word `i` becoming `old AND NOT (1 << b)`. -/
theorem write_changes_single_bit (ff : OneDFlagField) (r f : Nat) :
    (∀ ff', ff.Set r f = some (ff', none) →
      ff'.fieldWidth = ff.fieldWidth ∧ ff'.length = ff.length ∧
      ff'.data.length = ff.data.length ∧
      ∃ i b old : Nat, b < 32 ∧ ff.data[i]? = some old ∧
        ff'.data[i]? = some (old ||| 1 <<< b) ∧ ∀ j : Nat, j ≠ i → ff'.data[j]? = ff.data[j]?) ∧
    (∀ ff', ff.Unset r f = some (ff', none) →
      ff'.fieldWidth = ff.fieldWidth ∧ ff'.length = ff.length ∧
      ff'.data.length = ff.data.length ∧
      ∃ i b old : Nat, b < 32 ∧ ff.data[i]? = some old ∧
        ff'.data[i]? = some (old &&& not32 (1 <<< b)) ∧
        ∀ j : Nat, j ≠ i → ff'.data[j]? = ff.data[j]?) := by
  obtain ⟨W, N, data⟩ := ff
  have hb := bitIx_lt W r f
  have hm : bitMask (bitIx W r f) = 1 <<< bitIx W r f := by
    rw [bitMask_of_lt _ hb, Nat.one_shiftLeft]
  constructor
  · intro ff' h
    obtain ⟨-, w, hw, rfl⟩ := set_some_nil W N data r f ff' h
    have hlt := (List.getElem?_eq_some_iff.mp hw).1
    refine ⟨rfl, rfl, by simp, wordIx W r f, bitIx W r f, w, hb, hw, ?_, ?_⟩
    · simp only [List.getElem?_set_self hlt, hm]
    · intro j hj
      simp only [List.getElem?_set_ne (Ne.symm hj)]
  · intro ff' h
    obtain ⟨-, w, hw, rfl⟩ := unset_some_nil W N data r f ff' h
    have hlt := (List.getElem?_eq_some_iff.mp hw).1
    refine ⟨rfl, rfl, by simp, wordIx W r f, bitIx W r f, w, hb, hw, ?_, ?_⟩
    · simp only [List.getElem?_set_self hlt, hm]
    · intro j hj
      simp only [List.getElem?_set_ne (Ne.symm hj)]

/-- Witness for C19: `Set(4, 5)` on `MakeOneDFlagField(9, 5)` with storage `[0, 4112]`
gives `[0, 4624]`, and `Unset(4, 5)` on `[0, 4624]` gives `[0, 4112]` (bit 9 of word 1). -/
theorem write_changes_single_bit_witness :
    ((⟨9, 5, [0, 4624]⟩ : OneDFlagField).fieldWidth = 9 ∧
      (⟨9, 5, [0, 4624]⟩ : OneDFlagField).length = 5 ∧
      (⟨9, 5, [0, 4624]⟩ : OneDFlagField).data.length = 2 ∧
      ∃ i b old : Nat, b < 32 ∧ (⟨9, 5, [0, 4112]⟩ : OneDFlagField).data[i]? = some old ∧
        (⟨9, 5, [0, 4624]⟩ : OneDFlagField).data[i]? = some (old ||| 1 <<< b) ∧
        ∀ j : Nat, j ≠ i → (⟨9, 5, [0, 4624]⟩ : OneDFlagField).data[j]? =
          (⟨9, 5, [0, 4112]⟩ : OneDFlagField).data[j]?) ∧
    ((⟨9, 5, [0, 4112]⟩ : OneDFlagField).fieldWidth = 9 ∧
      (⟨9, 5, [0, 4112]⟩ : OneDFlagField).length = 5 ∧
      (⟨9, 5, [0, 4112]⟩ : OneDFlagField).data.length = 2 ∧
      ∃ i b old : Nat, b < 32 ∧ (⟨9, 5, [0, 4624]⟩ : OneDFlagField).data[i]? = some old ∧
        (⟨9, 5, [0, 4112]⟩ : OneDFlagField).data[i]? = some (old &&& not32 (1 <<< b)) ∧
        ∀ j : Nat, j ≠ i → (⟨9, 5, [0, 4112]⟩ : OneDFlagField).data[j]? =
          (⟨9, 5, [0, 4624]⟩ : OneDFlagField).data[j]?) :=
  ⟨(write_changes_single_bit ⟨9, 5, [0, 4112]⟩ 4 5).1 ⟨9, 5, [0, 4624]⟩ (by decide),
    (write_changes_single_bit ⟨9, 5, [0, 4624]⟩ 4 5).2 ⟨9, 5, [0, 4112]⟩ (by decide)⟩

/-! ## Claim C18: non-interference when the 8-bit sum cannot wrap -/

theorem test_eq_testBit (w k : Nat) : (w &&& 2 ^ k == 2 ^ k) = w.testBit k := by
  rw [Nat.and_two_pow]
  have hne : (0 : Nat) ≠ 2 ^ k := (Nat.pos_pow_of_pos _ (by decide)).ne
  cases w.testBit k <;> simp [hne]

theorem bitAt_eq_testBit (data : List Nat) (W r f : Nat) :
    bitAt data W r f =
      match data[wordIx W r f]? with
      | none => false
      | some w => w.testBit (bitIx W r f) := by
  unfold bitAt
  rw [bitMask_of_lt _ (bitIx_lt W r f)]
  cases data[wordIx W r f]? with
  | none => rfl
  | some w => exact test_eq_testBit w _

theorem slot_position (W r f : Nat) (hW : W ≤ 225) (hf : f < W) (hfit : r * W < uintMod) :
    wordIx W r f = (r * W + f) / 32 ∧ bitIx W r f = (r * W + f) % 32 := by
  unfold wordIx bitIx
  rw [Nat.mod_eq_of_lt hfit]
  simp only [uintMod] at *
  generalize r * W = B at *
  omega

theorem position_injective (W r f r' f' : Nat) (hf : f < W) (hf' : f' < W)
    (h : r * W + f = r' * W + f') : r = r' ∧ f = f' := by
  have hW : 0 < W := Nat.lt_of_le_of_lt (Nat.zero_le f) hf
  have h1 : (r * W + f) / W = r := by
    rw [Nat.add_comm, Nat.add_mul_div_right _ _ hW, Nat.div_eq_of_lt hf, Nat.zero_add]
  have h2 : (r' * W + f') / W = r' := by
    rw [Nat.add_comm, Nat.add_mul_div_right _ _ hW, Nat.div_eq_of_lt hf', Nat.zero_add]
  have hr : r = r' := by rw [← h1, ← h2, h]
  subst hr
  exact ⟨rfl, Nat.add_left_cancel h⟩

theorem bitAt_set_or (data : List Nat) (W r' f' i b w : Nat)
    (hne : (i, b) ≠ (wordIx W r' f', bitIx W r' f')) (hw : data[i]? = some w) :
    bitAt (data.set i (w ||| 2 ^ b)) W r' f' = bitAt data W r' f' := by
  have hlt := (List.getElem?_eq_some_iff.mp hw).1
  rw [bitAt_eq_testBit, bitAt_eq_testBit]
  by_cases hi : i = wordIx W r' f'
  · subst hi
    have hb : b ≠ bitIx W r' f' := fun hb => hne (by rw [hb])
    simp only [List.getElem?_set_self hlt, hw, Nat.testBit_or, Nat.testBit_two_pow, hb,
      decide_False, Bool.or_false]
  · simp only [List.getElem?_set_ne hi]

theorem bitAt_set_and_not (data : List Nat) (W r' f' i b w : Nat)
    (hne : (i, b) ≠ (wordIx W r' f', bitIx W r' f')) (hw : data[i]? = some w) :
    bitAt (data.set i (w &&& not32 (2 ^ b))) W r' f' = bitAt data W r' f' := by
  have hlt := (List.getElem?_eq_some_iff.mp hw).1
  have h32 : uint32Mod - 1 = 2 ^ 32 - 1 := rfl
  rw [bitAt_eq_testBit, bitAt_eq_testBit]
  by_cases hi : i = wordIx W r' f'
  · subst hi
    have hb : b ≠ bitIx W r' f' := fun hb => hne (by rw [hb])
    have hb' := bitIx_lt W r' f'
    simp only [List.getElem?_set_self hlt, hw, Nat.testBit_and, not32, h32, Nat.testBit_xor,
      Nat.testBit_two_pow_sub_one, Nat.testBit_two_pow, hb, hb', decide_True, decide_False,
      Bool.xor_false, Bool.and_true]
  · simp only [List.getElem?_set_ne hi]

/-- C18, as stated, fails where `r * W` wraps: `MakeOneDFlagField(4, 2^62 + 1)` has field
width `4 ≤ 225` and one storage word; the valid pairs `(2^62, 1)` and `(0, 1)` are
different, but `2^62 * 4` is `0` modulo `2^64`, so both address bit 1 of word 0 and
`Set(2^62, 1)` turns `IsSet(0, 1)` from false to true. -/
theorem wrapped_record_start_interferes :
    2 ^ 62 < 2 ^ 62 + 1 ∧ (MakeOneDFlagField 4 (2 ^ 62 + 1)).data = [0] ∧
    (MakeOneDFlagField 4 (2 ^ 62 + 1)).slot (2 ^ 62) 1 =
      (MakeOneDFlagField 4 (2 ^ 62 + 1)).slot 0 1 ∧
    (MakeOneDFlagField 4 (2 ^ 62 + 1)).IsSet 0 1 = some (false, none) ∧
    (MakeOneDFlagField 4 (2 ^ 62 + 1)).Set (2 ^ 62) 1 =
      some (⟨4, 2 ^ 62 + 1, [2]⟩, none) ∧
    (⟨4, 2 ^ 62 + 1, [2]⟩ : OneDFlagField).IsSet 0 1 = some (true, none) := by
  decide

/-- C18 (amended): for every array made by `MakeOneDFlagField(W, N)` with `W ≤ 225` and
`N * W < 2^64`, in any state, and any two distinct valid pairs `(r, f) ≠ (r', f')` with
`r, r' < N` and `f, f' < W`: the pair `(r, f)` is addressed at word `(r*W + f) / 32`, bit
`(r*W + f) mod 32`, the two pairs address distinct storage bits, and both `Set(r, f)` and
`Unset(r, f)` return without error and leave the result of `IsSet(r', f')` unchanged. -/
theorem non_interference_below_width_226 (W N : Nat) (ff : OneDFlagField) (r f r' f' : Nat)
    (hW : W ≤ 225) (hfit : N * W < uintMod) (hm : Made W N ff) (hr : r < N) (hf : f < W)
    (hr' : r' < N) (hf' : f' < W) (hne : (r, f) ≠ (r', f')) :
    ff.slot r f = ((r * W + f) / 32, (r * W + f) % 32) ∧
    ff.slot r f ≠ ff.slot r' f' ∧
    (∃ ff1, ff.Set r f = some (ff1, none) ∧ ff1.IsSet r' f' = ff.IsSet r' f') ∧
    (∃ ff2, ff.Unset r f = some (ff2, none) ∧ ff2.IsSet r' f' = ff.IsSet r' f') := by
  obtain ⟨W0, N0, data⟩ := ff
  obtain ⟨hw, hl, hs, -⟩ := hm
  simp only at hw hl hs
  subst hw hl
  have hrfit : r * W0 < uintMod :=
    Nat.lt_of_le_of_lt (Nat.mul_le_mul_right W0 (Nat.le_of_lt hr)) hfit
  have hrfit' : r' * W0 < uintMod :=
    Nat.lt_of_le_of_lt (Nat.mul_le_mul_right W0 (Nat.le_of_lt hr')) hfit
  obtain ⟨hwi, hbi⟩ := slot_position W0 r f hW hf hrfit
  obtain ⟨hwi', hbi'⟩ := slot_position W0 r' f' hW hf' hrfit'
  have hpos : r * W0 + f ≠ r' * W0 + f' := by
    intro h
    obtain ⟨h1, h2⟩ := position_injective W0 r f r' f' hf hf' h
    exact hne (by rw [h1, h2])
  have hslot : (wordIx W0 r f, bitIx W0 r f) ≠ (wordIx W0 r' f', bitIx W0 r' f') := by
    rw [hwi, hbi, hwi', hbi']
    intro h
    have h1 := congrArg Prod.fst h
    have h2 := congrArg Prod.snd h
    simp only at h1 h2
    omega
  have hi : wordIx W0 r f < data.length := hs ▸ wordIx_lt W0 N0 r f hfit hr hf
  have hi' : wordIx W0 r' f' < data.length := hs ▸ wordIx_lt W0 N0 r' f' hfit hr' hf'
  have hget : data[wordIx W0 r f]? = some data[wordIx W0 r f] := List.getElem?_eq_getElem hi
  have hb := bitMask_of_lt _ (bitIx_lt W0 r f)
  refine ⟨?_, ?_, ?_, ?_⟩
  · rw [slot_of_lt ⟨W0, N0, data⟩ r f hr, hwi, hbi]
  · rw [slot_of_lt ⟨W0, N0, data⟩ r f hr, slot_of_lt ⟨W0, N0, data⟩ r' f' hr']
    exact hslot
  · refine ⟨⟨W0, N0, data.set (wordIx W0 r f) (data[wordIx W0 r f] ||| 2 ^ bitIx W0 r f)⟩,
      ?_, ?_⟩
    · rw [set_of_lt _ r f hr, updAt_of_lt _ _ _ hi, hb]
      rfl
    · rw [isSet_eq_bitAt W0 N0 _ r' f' hr' (by simpa using hi'),
        isSet_eq_bitAt W0 N0 data r' f' hr' hi',
        bitAt_set_or data W0 r' f' _ _ _ hslot hget]
  · refine ⟨⟨W0, N0, data.set (wordIx W0 r f)
      (data[wordIx W0 r f] &&& not32 (2 ^ bitIx W0 r f))⟩, ?_, ?_⟩
    · rw [unset_of_lt _ r f hr, updAt_of_lt _ _ _ hi, hb]
      rfl
    · rw [isSet_eq_bitAt W0 N0 _ r' f' hr' (by simpa using hi'),
        isSet_eq_bitAt W0 N0 data r' f' hr' hi',
        bitAt_set_and_not data W0 r' f' _ _ _ hslot hget]

/-- Witness for C18: on `MakeOneDFlagField(9, 5)` with storage `[38797569, 4112]`, writing
field 3 of record 2 against reading field 3 of record 1. -/
theorem non_interference_below_width_226_witness :
    (⟨9, 5, [38797569, 4112]⟩ : OneDFlagField).slot 2 3 = ((2 * 9 + 3) / 32, (2 * 9 + 3) % 32) ∧
    (⟨9, 5, [38797569, 4112]⟩ : OneDFlagField).slot 2 3 ≠
      (⟨9, 5, [38797569, 4112]⟩ : OneDFlagField).slot 1 3 ∧
    (∃ ff1, (⟨9, 5, [38797569, 4112]⟩ : OneDFlagField).Set 2 3 = some (ff1, none) ∧
      ff1.IsSet 1 3 = (⟨9, 5, [38797569, 4112]⟩ : OneDFlagField).IsSet 1 3) ∧
    (∃ ff2, (⟨9, 5, [38797569, 4112]⟩ : OneDFlagField).Unset 2 3 = some (ff2, none) ∧
      ff2.IsSet 1 3 = (⟨9, 5, [38797569, 4112]⟩ : OneDFlagField).IsSet 1 3) :=
  non_interference_below_width_226 9 5 ⟨9, 5, [38797569, 4112]⟩ 2 3 1 3 (by decide) (by decide)
    ⟨rfl, rfl, rfl, by decide⟩ (by decide) (by decide) (by decide) (by decide) (by decide)

/-! ## Claim C20: the unused tail of the last word -/

theorem slot_below_bit_count (W N r f : Nat) (hfit : N * W < uintMod) (hr : r < N)
    (hf : f < W) : 32 * wordIx W r f + bitIx W r f < N * W := by
  have h1 : r * W + W ≤ N * W := by
    have := Nat.mul_le_mul_right W (Nat.succ_le_of_lt hr)
    rwa [Nat.succ_mul] at this
  unfold wordIx bitIx
  simp only [uintMod] at *
  generalize r * W = B at *
  generalize N * W = T at *
  omega

theorem paddingClear_replicate (k total : Nat) : PaddingClear (List.replicate k 0) total := by
  intro p _
  unfold storageBit
  rw [List.getElem?_replicate]
  split
  · rfl
  · rename_i w hw
    split at hw
    · cases hw
      exact Nat.zero_testBit _
    · cases hw

theorem paddingClear_set_or (data : List Nat) (total i b w : Nat)
    (hp : PaddingClear data total) (hlt : 32 * i + b < total) (hw : data[i]? = some w) :
    PaddingClear (data.set i (w ||| 2 ^ b)) total := by
  intro p hge
  have hold := hp p hge
  have hilt := (List.getElem?_eq_some_iff.mp hw).1
  unfold storageBit at hold ⊢
  by_cases hi : i = p / 32
  · subst hi
    rw [hw] at hold
    have hb : b ≠ p % 32 := by omega
    simp only [List.getElem?_set_self hilt, Nat.testBit_or, Nat.testBit_two_pow, hb,
      decide_False, Bool.or_false]
    exact hold
  · rw [List.getElem?_set_ne hi]
    exact hold

theorem paddingClear_set_and (data : List Nat) (total i m w : Nat)
    (hp : PaddingClear data total) (hw : data[i]? = some w) :
    PaddingClear (data.set i (w &&& m)) total := by
  intro p hge
  have hold := hp p hge
  have hilt := (List.getElem?_eq_some_iff.mp hw).1
  unfold storageBit at hold ⊢
  by_cases hi : i = p / 32
  · subst hi
    rw [hw] at hold
    simp only at hold
    simp only [List.getElem?_set_self hilt, Nat.testBit_and, hold, Bool.false_and]
  · rw [List.getElem?_set_ne hi]
    exact hold

theorem setFieldLoop_padding (W r total : Nat) :
    ∀ (l : List Nat) (data d : List Nat),
      (∀ f ∈ l, 32 * wordIx W r f + bitIx W r f < total) → PaddingClear data total →
      setFieldLoop (r * W % uintMod / 32) (r * W % uintMod % 32) data l = some d →
      PaddingClear d total := by
  intro l
  induction l with
  | nil =>
    intro data d _ hp h
    simp only [setFieldLoop, Option.some.injEq] at h
    exact h ▸ hp
  | cons f fs ih =>
    intro data d hpos hp h
    rw [setFieldLoop_cons, orField_eq] at h
    cases hu : updAt (fun w => w ||| bitMask ((r * W % uintMod % 32 + f) % 256 % 32)) data
      ((r * W % uintMod / 32 + (r * W % uintMod % 32 + f) % 256 / 32) % uintMod) with
    | none => simp [hu] at h
    | some d1 =>
      rw [hu] at h
      obtain ⟨w, hw, hd1⟩ := updAt_some _ _ _ _ hu
      have hb := bitMask_of_lt _ (bitIx_lt W r f)
      simp only [bitIx] at hb
      rw [hb] at hd1
      have hp1 : PaddingClear d1 total :=
        hd1 ▸ paddingClear_set_or data total _ _ w hp (hpos f (List.mem_cons_self _ _)) hw
      exact ih d1 d (fun g hg => hpos g (List.mem_cons_of_mem _ hg)) hp1 h

theorem unsetFieldLoop_padding (W r total : Nat) :
    ∀ (l : List Nat) (data d : List Nat), PaddingClear data total →
      unsetFieldLoop (r * W % uintMod / 32) (r * W % uintMod % 32) data l = some d →
      PaddingClear d total := by
  intro l
  induction l with
  | nil =>
    intro data d hp h
    simp only [unsetFieldLoop, Option.some.injEq] at h
    exact h ▸ hp
  | cons f fs ih =>
    intro data d hp h
    rw [unsetFieldLoop_cons, clearField_eq] at h
    cases hu : updAt (fun w => w &&& not32 (bitMask ((r * W % uintMod % 32 + f) % 256 % 32)))
      data ((r * W % uintMod / 32 + (r * W % uintMod % 32 + f) % 256 / 32) % uintMod) with
    | none => simp [hu] at h
    | some d1 =>
      rw [hu] at h
      obtain ⟨w, hw, hd1⟩ := updAt_some _ _ _ _ hu
      have hp1 : PaddingClear d1 total := hd1 ▸ paddingClear_set_and data total _ _ w hp hw
      exact ih d1 d hp1 h

theorem apply_keeps_padding (W N : Nat) (ff : OneDFlagField) (c : Call)
    (hfit : N * W < uintMod) (hm : Made W N ff) (hp : PaddingClear ff.data (N * W))
    (hf : ∀ f ∈ c.fields, f < W) :
    ∃ ff' e, c.apply ff = some (ff', e) ∧ Made W N ff' ∧ PaddingClear ff'.data (N * W) := by
  obtain ⟨W0, N0, data⟩ := ff
  obtain ⟨hw, hl, hs, hwords⟩ := hm
  simp only at hw hl hs hwords hp
  subst hw hl
  have hmade : Made W0 N0 ⟨W0, N0, data⟩ := ⟨rfl, rfl, hs, hwords⟩
  cases c with
  | set r f =>
    simp only [Call.apply]
    by_cases hr : r < N0
    · have hfW := hf f (List.mem_singleton_self f)
      have hi : wordIx W0 r f < data.length := hs ▸ wordIx_lt W0 N0 r f hfit hr hfW
      have hstep := updAt_of_lt (fun w => w ||| bitMask (bitIx W0 r f)) data _ hi
      refine ⟨⟨W0, N0, _⟩, none, ?_, made_of_updAt W0 N0 ⟨W0, N0, data⟩ _
        (or_bitMask_lt (bitIx W0 r f)) _ _ hmade hstep, ?_⟩
      · rw [set_of_lt _ r f hr, hstep]
        rfl
      · simp only [bitMask_of_lt _ (bitIx_lt W0 r f)]
        exact paddingClear_set_or data _ _ _ _ hp (slot_below_bit_count W0 N0 r f hfit hr hfW)
          (List.getElem?_eq_getElem hi)
    · exact ⟨_, _, set_of_ge W0 N0 data r f (Nat.le_of_not_lt hr), hmade, hp⟩
  | unset r f =>
    simp only [Call.apply]
    by_cases hr : r < N0
    · have hfW := hf f (List.mem_singleton_self f)
      have hi : wordIx W0 r f < data.length := hs ▸ wordIx_lt W0 N0 r f hfit hr hfW
      have hstep := updAt_of_lt (fun w => w &&& not32 (bitMask (bitIx W0 r f))) data _ hi
      refine ⟨⟨W0, N0, _⟩, none, ?_, made_of_updAt W0 N0 ⟨W0, N0, data⟩ _
        (and_not32_lt (bitMask (bitIx W0 r f))) _ _ hmade hstep, ?_⟩
      · rw [unset_of_lt _ r f hr, hstep]
        rfl
      · exact paddingClear_set_and data _ _ _ _ hp (List.getElem?_eq_getElem hi)
    · exact ⟨_, _, unset_of_ge W0 N0 data r f (Nat.le_of_not_lt hr), hmade, hp⟩
  | setField r f0 rest =>
    simp only [Call.apply]
    by_cases hr : r < N0
    · have hi : ∀ f ∈ f0 :: rest, wordIx W0 r f < data.length :=
        fun f hmem => hs ▸ wordIx_lt W0 N0 r f hfit hr (hf f hmem)
      obtain ⟨d, hd, hdl, hdw⟩ := setFieldLoop_ok W0 r (f0 :: rest) data hi hwords
      refine ⟨⟨W0, N0, d⟩, none, ?_, ⟨rfl, rfl, hdl.trans hs, hdw⟩, ?_⟩
      · rw [setField_of_lt W0 N0 data r f0 rest hr, hd]
        rfl
      · exact setFieldLoop_padding W0 r _ (f0 :: rest) data d
          (fun f hmem => slot_below_bit_count W0 N0 r f hfit hr (hf f hmem)) hp hd
    · exact ⟨_, _, setField_of_ge W0 N0 data r f0 rest (Nat.le_of_not_lt hr), hmade, hp⟩
  | unsetField r f0 rest =>
    simp only [Call.apply]
    by_cases hr : r < N0
    · have hi : ∀ f ∈ f0 :: rest, wordIx W0 r f < data.length :=
        fun f hmem => hs ▸ wordIx_lt W0 N0 r f hfit hr (hf f hmem)
      obtain ⟨d, hd, hdl, hdw⟩ := unsetFieldLoop_ok W0 r (f0 :: rest) data hi hwords
      refine ⟨⟨W0, N0, d⟩, none, ?_, ⟨rfl, rfl, hdl.trans hs, hdw⟩, ?_⟩
      · rw [unsetField_of_lt W0 N0 data r f0 rest hr, hd]
        rfl
      · exact unsetFieldLoop_padding W0 r _ (f0 :: rest) data d hp hd
    · exact ⟨_, _, unsetField_of_ge W0 N0 data r f0 rest (Nat.le_of_not_lt hr), hmade, hp⟩

theorem runCalls_keeps_padding (W N : Nat) (hfit : N * W < uintMod) (cs : List Call) :
    ∀ (ff : OneDFlagField), Made W N ff → PaddingClear ff.data (N * W) →
      (∀ c ∈ cs, ∀ f ∈ c.fields, f < W) →
      ∃ ff', runCalls ff cs = some ff' ∧ Made W N ff' ∧ PaddingClear ff'.data (N * W) := by
  induction cs with
  | nil => intro ff hm hp _; exact ⟨ff, rfl, hm, hp⟩
  | cons c cs ih =>
    intro ff hm hp hf
    obtain ⟨ff1, e, h1, hm1, hp1⟩ :=
      apply_keeps_padding W N ff c hfit hm hp (hf c (List.mem_cons_self _ _))
    obtain ⟨ff', h2, hm2, hp2⟩ := ih ff1 hm1 hp1 (fun c' hc' => hf c' (List.mem_cons_of_mem _ hc'))
    refine ⟨ff', ?_, hm2, hp2⟩
    simp only [runCalls, h1]
    exact h2

/-- C20, as stated, fails where the bit count wraps: `MakeOneDFlagField(64, 2^58)` has
`N * W = 2^64`, the constructor allocates no word, and after the sequence consisting of
the call `Set(2^58, 0)` (record index out of range, field index `0 < 64`) the storage
length is `0`, not `ceil(N*W/32) = 2^59`. -/
theorem wrapped_bit_count_storage_length :
    (∀ c ∈ [Call.set (2 ^ 58) 0], ∀ f ∈ c.fields, f < 64) ∧
    runCalls (MakeOneDFlagField 64 (2 ^ 58)) [Call.set (2 ^ 58) 0] =
      some ⟨64, 2 ^ 58, []⟩ ∧
    (⟨64, 2 ^ 58, []⟩ : OneDFlagField).data.length = 0 ∧
    (2 ^ 58 * 64 + 31) / 32 = 2 ^ 59 := by
  decide

/-- C20 (amended): for `N * W < 2^64`, starting from `MakeOneDFlagField(W, N)` and
applying any sequence of `Set`, `Unset`, `SetField` and `UnsetField` calls whose record
indices are any values and whose field indices are all below `W`: no call panics, the
storage length stays `ceil(N*W/32)`, and every storage bit at absolute position `≥ N*W`
(the unused tail of the last word) is still `0`. -/
theorem padding_bits_stay_clear (W N : Nat) (cs : List Call) (hfit : N * W < uintMod)
    (hf : ∀ c ∈ cs, ∀ f ∈ c.fields, f < W) :
    ∃ ff', runCalls (MakeOneDFlagField W N) cs = some ff' ∧ Made W N ff' ∧
      ff'.data.length = (N * W + 31) / 32 ∧
      ∀ p, N * W ≤ p → storageBit ff'.data p = false := by
  have hm0 : Made W N (MakeOneDFlagField W N) := by
    refine ⟨rfl, rfl, rfl, ?_⟩
    intro w hw
    simp only [MakeOneDFlagField] at hw
    rw [(List.mem_replicate.mp hw).2]
    decide
  have hp0 : PaddingClear (MakeOneDFlagField W N).data (N * W) := by
    simp only [MakeOneDFlagField]
    exact paddingClear_replicate _ _
  obtain ⟨ff', h, hm, hp⟩ := runCalls_keeps_padding W N hfit cs _ hm0 hp0 hf
  exact ⟨ff', h, hm, hm.size.trans (makeOneDFlagField_length W N hfit), hp⟩

/-- Witness for C20: on `MakeOneDFlagField(9, 5)` (45 bits, two words) the calls
`SetField(4, 0, 5, 8)`, `Set(9, 3)` (failing), `Unset(4, 5)`, `UnsetField(0, 1, 2)`. -/
theorem padding_bits_stay_clear_witness :
    ∃ ff', runCalls (MakeOneDFlagField 9 5)
        [Call.setField 4 0 [5, 8], Call.set 9 3, Call.unset 4 5, Call.unsetField 0 1 [2]] =
        some ff' ∧ Made 9 5 ff' ∧
      ff'.data.length = (5 * 9 + 31) / 32 ∧
      ∀ p, 5 * 9 ≤ p → storageBit ff'.data p = false :=
  padding_bits_stay_clear 9 5
    [Call.setField 4 0 [5, 8], Call.set 9 3, Call.unset 4 5, Call.unsetField 0 1 [2]]
    (by decide) (by decide)

end FlagField
